import Mathlib

/-!
# WuKongIM: outbound replication queue and sub-reactor

A shallow embedding of `internal/reactor/user/ready.go` (the types `ready` and
`outboundReady`), of `pkg/cluster/reactor/reactor_sub.go` (ready dispatch, proposals,
event handling, get-logs tasks) and of the message queue exercised by
`pkg/cluster/clusterserver/message_queue_test.go`.

Conventions of the embedding.

* Go `uint64` indices are natural numbers and Go `int` tick counters are integers.
  The arithmetic on them in the source is addition of small values, so the embedding
  agrees with the machine arithmetic on every state whose counters are below `2^63`;
  none of the statements is about the wrap-around boundary.
* A Go call that can end in a run-time panic returns a `goResult`; `r.Panic` of the
  logger is recorded in the field `panicked` of an outcome.
* A Go `map[uint64]*replicaState` is a list of `replicaState` values keyed by their
  `nodeId` field (the source always stores a replica under its own `nodeId`).  The
  order of the list is the order in which a `range` loop visits the map; Go leaves
  that order unspecified, so statements quantify over every state, hence over every
  order.  A list is a well-formed map when its keys are pairwise distinct.
* Pointers to messages are message values; a message is identified by its fields.
* Logging calls have no effect on the state and are omitted.
-/

namespace WuKong

/-! ## Messages and the log queue -/

/-- A user message as seen by the outbound queue: `Index` and `ToNode` are the two
fields `ready.go` reads or writes; `Size` and `Payload` stand for the encoded size and
the remaining content of `reactor.UserMessage`, which the queue never inspects. -/
structure UserMessage where
  Index : Nat
  ToNode : Nat
  Size : Nat
  Payload : Nat
deriving DecidableEq, Repr

/-- Modelled from the spec: the type `msgQueue` (the Log Queue of section 4.1) is declared
outside the available sources.  It holds the stored entries in order together with
`lastIndex`, the index handed out last. -/
structure msgQueue where
  messages : List UserMessage
  lastIndex : Nat
deriving DecidableEq, Repr

/-- Modelled from the spec: `newMsgQueue`, an empty queue whose `lastIndex` is 0. -/
def newMsgQueue : msgQueue :=
  { messages := [], lastIndex := 0 }

/-- Modelled from the spec: `msgQueue.append`, "assigns the next index and stores the
entry"; `lastIndex` increases by exactly one per call. -/
def msgQueue.append (q : msgQueue) (m : UserMessage) : msgQueue :=
  { messages := q.messages ++ [{ m with Index := q.lastIndex + 1 }],
    lastIndex := q.lastIndex + 1 }

/-- Modelled from the spec: `msgQueue.len`, the number of stored entries. -/
def msgQueue.len (q : msgQueue) : Nat :=
  q.messages.length

/-- The longest leading run of messages whose sizes add up to at most `budget`. -/
def takeWithinSize : Nat → List UserMessage → List UserMessage
  | _, [] => []
  | budget, m :: ms =>
    if m.Size ≤ budget then m :: takeWithinSize (budget - m.Size) ms else []

/-- Modelled from the spec: `msgQueue.sliceWithSize`, "a contiguous, order-preserving
view of entries with index in `[start, end)`, optionally capped by a byte budget".
A budget of 0 means no cap; every call in `ready.go` passes 0. -/
def msgQueue.sliceWithSize (q : msgQueue) (startIndex endIndex maxSize : Nat) :
    List UserMessage :=
  let inRange := q.messages.filter (fun m => decide (startIndex ≤ m.Index ∧ m.Index < endIndex))
  if maxSize = 0 then inRange else takeWithinSize maxSize inRange

/-- Modelled from the spec: `msgQueue.truncateTo`, "discards all entries with
index `< index`"; `lastIndex` is kept. -/
def msgQueue.truncateTo (q : msgQueue) (index : Nat) : msgQueue :=
  { q with messages := q.messages.filter (fun m => decide (index ≤ m.Index)) }

/-- Modelled from the spec: the queue invariant of section 3, "queue indices are strictly
increasing", together with `lastIndex` bounding every stored index. -/
def msgQueue.wf (q : msgQueue) : Prop :=
  q.messages.Pairwise (fun a b => a.Index < b.Index) ∧ ∀ m ∈ q.messages, m.Index ≤ q.lastIndex

instance (q : msgQueue) : Decidable q.wf := by
  unfold msgQueue.wf; infer_instance

/-! ## The outbound replication queue -/

/-- The options read by `ready.go` through the package variable `options`; the
declaration of that variable is outside the available sources, so the three values
are parameters of the embedding. -/
structure Options where
  NodeId : Nat
  OutboundForwardIntervalTick : Int
  NodeHeartbeatTimeoutTick : Int
deriving DecidableEq, Repr

/-- The per-replica record `replicaState`. -/
structure replicaState where
  nodeId : Nat
  outboundForwardedIndex : Nat
  forwardIdleTick : Int
  heartbeatIdleTick : Int
deriving DecidableEq, Repr

/-- The constructor `newReplicaState`: both idle counters start at zero. -/
def newReplicaState (nodeId outboundForwardedIndex : Nat) : replicaState :=
  { nodeId := nodeId, outboundForwardedIndex := outboundForwardedIndex,
    forwardIdleTick := 0, heartbeatIdleTick := 0 }

/-- The action kinds of `reactor.UserActionType` that matter here: the forward action
built by `ready`, and one constructor standing for all the other kinds. -/
inductive UserActionType where
  | UserActionOutboundForward
  | UserActionOther
deriving DecidableEq, Repr

/-- The fields of `reactor.UserAction` that `ready` fills in. -/
structure UserAction where
  ActionType : UserActionType
  From : Nat
  To : Nat
  Messages : List UserMessage
deriving DecidableEq, Repr

/-- The struct `outboundReady` (the embedded logger is left out). -/
structure outboundReady where
  queue : msgQueue
  replicas : List replicaState
  offsetIndex : Nat
  commitIndex : Nat
deriving DecidableEq, Repr

/-- The constructor `newOutboundReady`. -/
def newOutboundReady : outboundReady :=
  { queue := newMsgQueue, replicas := [], offsetIndex := 0, commitIndex := 0 }

/-- Map lookup `o.replicas[nodeId]`; `none` is Go's nil. -/
def lookupReplica (rs : List replicaState) (nodeId : Nat) : Option replicaState :=
  rs.find? (fun r => decide (r.nodeId = nodeId))

/-- A write through the pointer stored under `nodeId`. -/
def modifyReplica (rs : List replicaState) (nodeId : Nat) (f : replicaState → replicaState) :
    List replicaState :=
  rs.map (fun r => if r.nodeId = nodeId then f r else r)

/-- Map assignment `m[nodeId] = r`: an existing key keeps its slot, a new key is added. -/
def insertReplica : List replicaState → replicaState → List replicaState
  | [], r => [r]
  | x :: xs, r => if x.nodeId = r.nodeId then r :: xs else x :: insertReplica xs r

/-- The keys of the replica map. -/
def replicaKeys (rs : List replicaState) : List Nat :=
  rs.map (fun r => r.nodeId)

/-- Well-formedness of the replica map: no key occurs twice. -/
def outboundReady.wf (o : outboundReady) : Prop :=
  (replicaKeys o.replicas).Nodup

instance (o : outboundReady) : Decidable o.wf := by
  unfold outboundReady.wf; infer_instance

/-- The method `outboundReady.append`: the message gets index `lastIndex + 1` and is
appended to the queue. -/
def outboundReady.append (o : outboundReady) (m : UserMessage) : outboundReady :=
  { o with queue := o.queue.append { m with Index := o.queue.lastIndex + 1 } }

/-- The loop of `outboundReady.has` over the replicas in visiting order. -/
def hasLoop (opts : Options) (o : outboundReady) : List replicaState → Bool
  | [] => false
  | r :: rs =>
    if r.forwardIdleTick < opts.OutboundForwardIntervalTick then false
    else if r.outboundForwardedIndex ≥ o.commitIndex ∧ r.outboundForwardedIndex < o.queue.lastIndex
    then true
    else hasLoop opts o rs

/-- The method `outboundReady.has`. -/
def outboundReady.has (opts : Options) (o : outboundReady) : Bool :=
  hasLoop opts o o.replicas

/-- The first loop of `outboundReady.ready`: one action per message with a destination
node, and the flag `hasToNode`. -/
def readyToNodeLoop (opts : Options) :
    List UserMessage → List UserAction × Bool → List UserAction × Bool
  | [], acc => acc
  | msg :: rest, (actions, hasToNode) =>
    if msg.ToNode ≠ 0 then
      readyToNodeLoop opts rest
        (actions ++ [{ ActionType := UserActionType.UserActionOutboundForward,
                       From := opts.NodeId, To := msg.ToNode, Messages := [msg] }], true)
    else readyToNodeLoop opts rest (actions, hasToNode)

/-- The second loop of `outboundReady.ready`: the messages without a destination node. -/
def readyNewMsgsLoop : List UserMessage → List UserMessage → List UserMessage
  | [], newMsgs => newMsgs
  | msg :: rest, newMsgs =>
    if msg.ToNode = 0 then readyNewMsgsLoop rest (newMsgs ++ [msg])
    else readyNewMsgsLoop rest newMsgs

/-- The third loop of `outboundReady.ready`: one broadcast action per tracked replica. -/
def readyReplicaLoop (opts : Options) (newMsgs : List UserMessage) :
    List replicaState → List UserAction → List UserAction
  | [], actions => actions
  | r :: rest, actions =>
    readyReplicaLoop opts newMsgs rest
      (actions ++ [{ ActionType := UserActionType.UserActionOutboundForward,
                     From := opts.NodeId, To := r.nodeId, Messages := newMsgs }])

/-- The method `outboundReady.ready`: the state after the call and the returned actions
(`[]` is Go's nil slice). -/
def outboundReady.ready (opts : Options) (o : outboundReady) : outboundReady × List UserAction :=
  let endIndex := o.queue.lastIndex
  let msgs := o.queue.sliceWithSize (o.offsetIndex + 1) (endIndex + 1) 0
  match msgs.getLast? with
  | none => (o, [])
  | some last =>
    let lastIndex := last.Index
    let o1 := { o with queue := o.queue.truncateTo (lastIndex + 1) }
    let (actions, hasToNode) := readyToNodeLoop opts msgs ([], false)
    let newMsgs := if hasToNode then readyNewMsgsLoop msgs [] else msgs
    (o1, readyReplicaLoop opts newMsgs o1.replicas actions)

/-- The method `outboundReady.commit`. -/
def outboundReady.commit (o : outboundReady) (index : Nat) : outboundReady :=
  { o with queue := o.queue.truncateTo (index + 1) }

/-- The loop of `outboundReady.checkCommit`, with the running value the source
calls `minIndex`. -/
def checkCommitLoop : List replicaState → Nat → Nat
  | [], minIndex => minIndex
  | r :: rs, minIndex =>
    if r.outboundForwardedIndex > minIndex then checkCommitLoop rs r.outboundForwardedIndex
    else checkCommitLoop rs minIndex

/-- The method `outboundReady.checkCommit`. -/
def outboundReady.checkCommit (o : outboundReady) : outboundReady :=
  let minIndex := checkCommitLoop o.replicas o.commitIndex
  if minIndex > o.commitIndex then
    ({ o with commitIndex := minIndex } : outboundReady).commit minIndex
  else o

/-- The method `outboundReady.updateReplicaIndex`. -/
def outboundReady.updateReplicaIndex (o : outboundReady) (nodeId index : Nat) : outboundReady :=
  match lookupReplica o.replicas nodeId with
  | none => o
  | some replica =>
    let o1 :=
      if index > replica.outboundForwardedIndex then
        ({ o with replicas := modifyReplica o.replicas nodeId
                    (fun r => { r with outboundForwardedIndex := index }) } : outboundReady).checkCommit
      else o
    { o1 with replicas := modifyReplica o1.replicas nodeId (fun r => { r with forwardIdleTick := 0 }) }

/-- The method `outboundReady.updateReplicaHeartbeat`. -/
def outboundReady.updateReplicaHeartbeat (o : outboundReady) (nodeId : Nat) : outboundReady :=
  match lookupReplica o.replicas nodeId with
  | none => o
  | some _ =>
    { o with replicas := modifyReplica o.replicas nodeId (fun r => { r with heartbeatIdleTick := 0 }) }

/-- The method `outboundReady.addNewReplica`. -/
def outboundReady.addNewReplica (o : outboundReady) (nodeId : Nat) : outboundReady :=
  { o with replicas := insertReplica o.replicas (newReplicaState nodeId o.commitIndex) }

/-- The loop of `outboundReady.tick`: both idle counters of the visited replica go up by
one, and the replica is deleted from the map when its heartbeat counter has reached
the timeout. -/
def tickLoop (opts : Options) : List replicaState → List replicaState
  | [] => []
  | r :: rs =>
    let r1 := { r with heartbeatIdleTick := r.heartbeatIdleTick + 1,
                       forwardIdleTick := r.forwardIdleTick + 1 }
    if r1.heartbeatIdleTick ≥ opts.NodeHeartbeatTimeoutTick then tickLoop opts rs
    else r1 :: tickLoop opts rs

/-- The method `outboundReady.tick`. -/
def outboundReady.tick (opts : Options) (o : outboundReady) : outboundReady :=
  { o with replicas := tickLoop opts o.replicas }

/-- The method `outboundReady.reset`. -/
def outboundReady.reset (_o : outboundReady) : outboundReady :=
  { queue := newMsgQueue, replicas := [], offsetIndex := 0, commitIndex := 0 }

/-- One call on an outbound queue; `reset` is not part of the traces considered. -/
inductive Call where
  | append (m : UserMessage)
  | addNewReplica (nodeId : Nat)
  | updateReplicaIndex (nodeId index : Nat)
  | updateReplicaHeartbeat (nodeId : Nat)
  | ready
  | tick
deriving DecidableEq, Repr

/-- The state after one call. -/
def outboundReady.call (opts : Options) (o : outboundReady) : Call → outboundReady
  | Call.append m => o.append m
  | Call.addNewReplica nodeId => o.addNewReplica nodeId
  | Call.updateReplicaIndex nodeId index => o.updateReplicaIndex nodeId index
  | Call.updateReplicaHeartbeat nodeId => o.updateReplicaHeartbeat nodeId
  | Call.ready => (o.ready opts).1
  | Call.tick => o.tick opts

/-- The state after a sequence of calls, first call first. -/
def outboundReady.run (opts : Options) (o : outboundReady) (calls : List Call) : outboundReady :=
  calls.foldl (outboundReady.call opts) o

/-! ## Auxiliary definitions for the statements -/

/-- Options used by the concrete scenarios: local node 9, forward cooldown of one tick,
heartbeat timeout of three ticks. -/
def scenarioOptions : Options :=
  { NodeId := 9, OutboundForwardIntervalTick := 1, NodeHeartbeatTimeoutTick := 3 }

/-- A broadcast message (no destination node). -/
def broadcastMsg : UserMessage :=
  { Index := 0, ToNode := 0, Size := 1, Payload := 7 }

/-- Every tracked replica has acknowledged at least the commit index; on a non-empty
replica set this says that `commitIndex` is at most the minimum acknowledged index. -/
def outboundReady.commitBelowReplicas (o : outboundReady) : Prop :=
  ∀ r ∈ o.replicas, o.commitIndex ≤ r.outboundForwardedIndex

instance (o : outboundReady) : Decidable o.commitBelowReplicas := by
  unfold outboundReady.commitBelowReplicas; infer_instance

/-- Two replicas, one appended message, and an acknowledgement from replica 1 only. -/
def oneAckOfTwo : List Call :=
  [Call.addNewReplica 1, Call.addNewReplica 2, Call.append broadcastMsg,
   Call.updateReplicaIndex 1 1]

/-- Scenario 1 up to the three acknowledgements. -/
def scenario1Acks : List Call :=
  [Call.addNewReplica 1, Call.addNewReplica 2, Call.addNewReplica 3] ++
  List.replicate 5 (Call.append broadcastMsg) ++
  [Call.updateReplicaIndex 1 5, Call.updateReplicaIndex 2 5, Call.updateReplicaIndex 3 2]

/-- Scenario 1, eviction of replica 3: three ticks, with heartbeats of replicas 1 and 2
in between. -/
def scenario1Evict : List Call :=
  [Call.tick, Call.updateReplicaHeartbeat 1, Call.updateReplicaHeartbeat 2,
   Call.tick, Call.updateReplicaHeartbeat 1, Call.updateReplicaHeartbeat 2,
   Call.tick]

/-- The point-to-point action built by `ready` for a message with a destination node. -/
def toNodeAction (opts : Options) (msg : UserMessage) : UserAction :=
  { ActionType := UserActionType.UserActionOutboundForward, From := opts.NodeId,
    To := msg.ToNode, Messages := [msg] }

/-- The broadcast action built by `ready` for a tracked replica. -/
def replicaAction (opts : Options) (newMsgs : List UserMessage) (r : replicaState) : UserAction :=
  { ActionType := UserActionType.UserActionOutboundForward, From := opts.NodeId,
    To := r.nodeId, Messages := newMsgs }

/-- The messages `ready` slices from the queue: the unsent batch. -/
def outboundReady.unsent (o : outboundReady) : List UserMessage :=
  o.queue.sliceWithSize (o.offsetIndex + 1) (o.queue.lastIndex + 1) 0

/-- The replica stored under `nodeId` has heartbeat-idle counter `n`. -/
def outboundReady.trackedAt (o : outboundReady) (nodeId : Nat) (n : Int) : Prop :=
  ∃ r ∈ o.replicas, r.nodeId = nodeId ∧ r.heartbeatIdleTick = n

instance (o : outboundReady) (nodeId : Nat) (n : Int) : Decidable (o.trackedAt nodeId n) := by
  unfold outboundReady.trackedAt; infer_instance

/-- The invariant of the acknowledgement phase for a log of `N` entries. -/
def outboundReady.ackInv (o : outboundReady) (N : Nat) : Prop :=
  o.wf ∧ (∀ m ∈ o.queue.messages, m.Index ≤ N) ∧
  (∀ r ∈ o.replicas, r.outboundForwardedIndex ≤ N) ∧ o.commitIndex ≤ N ∧
  (o.commitIndex = N → o.queue.messages = []) ∧
  ((∃ r ∈ o.replicas, r.outboundForwardedIndex = N) → o.commitIndex = N)

/-! ## The sub-reactor: dispatch of a ready batch -/

namespace replica

/-- The message kinds of `replica.MsgType` that `reactor_sub.go` names, and one
constructor for every other kind. -/
inductive MsgType where
  | MsgSync
  | MsgSyncResp
  | MsgSyncGet
  | MsgStoreAppend
  | MsgApplyLogsReq
  | MsgVoteResp
  | MsgOther
deriving DecidableEq, Repr

/-- A log entry `replica.Log`: the fields used by `reactor_sub.go`, and `Data` for the
payload. -/
structure Log where
  Id : Nat
  Index : Nat
  Term : Nat
  Data : Nat
deriving DecidableEq, Repr

/-- A substrate message `replica.Message`, with the fields read by `reactor_sub.go`. -/
structure Message where
  MsgType : MsgType
  From : Nat
  To : Nat
  Term : Nat
  Index : Nat
  ApplyingIndex : Nat
  CommittedIndex : Nat
  AppliedIndex : Nat
  Logs : List Log
deriving DecidableEq, Repr

/-- The hard state `replica.HardState`; `reactor_sub.go` only passes it on. -/
structure HardState where
  LeaderId : Nat
  Term : Nat
deriving DecidableEq, Repr

/-- The batch `replica.Ready` returned by `handler.ready()`. -/
structure Ready where
  HardState : HardState
  Messages : List Message
deriving DecidableEq, Repr

end replica

namespace cluster

/-- The options of the sub-reactor that `handleReady` and `handleProposes` read. -/
structure Options where
  NodeId : Nat
  MaxProposeLogCount : Int := 0
deriving DecidableEq, Repr

/-- The sync status of a handler. -/
inductive syncStatus where
  | syncStatusNone
  | syncStatusSyncing
  | syncStatusSynced
deriving DecidableEq, Repr

/-- The record `handler.sync`; times and durations are integers (nanoseconds). -/
structure syncInfo where
  syncStatus : syncStatus
  syncingLogIndex : Nat
  startSyncTime : Int
  syncTimeout : Int
deriving DecidableEq, Repr

/-- The part of `handler` that `handleReady` touches: its key, its sync record and the
hard state stored by `setHardState`. -/
structure handler where
  key : String
  sync : syncInfo
  hardState : replica.HardState
deriving DecidableEq, Repr

set_option linter.dupNamespace false

/-- The transport message `Message` handed to `opts.Send`. -/
structure Message where
  HandlerKey : String
  Message : replica.Message
deriving DecidableEq, Repr

/-- The sub-reactor, reduced to its options. -/
structure ReactorSub where
  opts : Options
deriving DecidableEq, Repr

/-- What one `handleReady` call has done: the handler after the call, the arguments of
the `opts.Send` calls in order, the messages passed to `handleLocalMsg` in order, and
the returned boolean. -/
structure readyOutcome where
  handler : handler
  sent : List Message
  localMsgs : List replica.Message
  result : Bool
deriving DecidableEq, Repr

/-- The body of the message loop of `handleReady` for one message; `now` is the reading
of the clock (`time.Now()`, and `time.Since(t)` is `now - t`). -/
def ReactorSub.handleReadyMsg (r : ReactorSub) (now : Int) (acc : readyOutcome)
    (m : replica.Message) : readyOutcome :=
  if m.To = r.opts.NodeId then
    { acc with localMsgs := acc.localMsgs ++ [m] }
  else if m.To = 0 then acc
  else
    let send (a : readyOutcome) : readyOutcome :=
      { a with sent := a.sent ++ [{ HandlerKey := a.handler.key, Message := m }] }
    if m.MsgType = replica.MsgType.MsgSync then
      match acc.handler.sync.syncStatus with
      | syncStatus.syncStatusNone =>
        send { acc with handler := { acc.handler with sync :=
          { acc.handler.sync with startSyncTime := now, syncingLogIndex := m.Index,
                                  syncStatus := syncStatus.syncStatusSyncing } } }
      | syncStatus.syncStatusSyncing =>
        if m.Index > acc.handler.sync.syncingLogIndex ∨
            now - acc.handler.sync.startSyncTime > acc.handler.sync.syncTimeout then
          send { acc with handler := { acc.handler with sync :=
            { acc.handler.sync with syncingLogIndex := m.Index, startSyncTime := now } } }
        else acc
      | syncStatus.syncStatusSynced => acc
    else send acc

/-- The method `ReactorSub.handleReady`.  `rd` is the batch returned by `handler.ready()`
and `h` the handler after that call; `IsEmptyReady` and `IsEmptyHardState` of package
`replica` are parameters. -/
def ReactorSub.handleReady (r : ReactorSub) (IsEmptyReady : replica.Ready → Bool)
    (IsEmptyHardState : replica.HardState → Bool) (now : Int) (h : handler)
    (rd : replica.Ready) : readyOutcome :=
  if IsEmptyReady rd then { handler := h, sent := [], localMsgs := [], result := false }
  else
    let h1 := if ! IsEmptyHardState rd.HardState then { h with hardState := rd.HardState } else h
    let acc := rd.Messages.foldl (r.handleReadyMsg now)
      { handler := h1, sent := [], localMsgs := [], result := false }
    { acc with result := true }

end cluster

/-! ## Concrete inputs -/

/-- A message addressed to node 2. -/
def toNode2Msg : UserMessage :=
  { Index := 0, ToNode := 2, Size := 1, Payload := 8 }

/-- Two replicas and three unsent messages, the last one addressed to node 2. -/
def sampleCalls : List Call :=
  [Call.addNewReplica 1, Call.addNewReplica 2, Call.append broadcastMsg,
   Call.append broadcastMsg, Call.append toNode2Msg]

/-- The queue state after `sampleCalls`. -/
def sampleQueue : outboundReady :=
  newOutboundReady.run scenarioOptions sampleCalls

/-- The queue state after `sampleCalls` and one tick, when the forward cooldown is over. -/
def sampleQueueTicked : outboundReady :=
  newOutboundReady.run scenarioOptions (sampleCalls ++ [Call.tick])

/-- Five broadcast messages. -/
def fiveMsgs : List UserMessage :=
  List.replicate 5 broadcastMsg

/-- A sub-reactor on node 1. -/
def sampleReactorSub : cluster.ReactorSub :=
  { opts := { NodeId := 1 } }

/-- A handler that has been syncing index 10 since time 100, with a timeout of 50. -/
def syncingHandler : cluster.handler :=
  { key := "channel-1",
    sync := { syncStatus := cluster.syncStatus.syncStatusSyncing, syncingLogIndex := 10,
              startSyncTime := 100, syncTimeout := 50 },
    hardState := { LeaderId := 1, Term := 1 } }

/-- A sync message for index 7 from node 1 to node 2. -/
def syncMsg : replica.Message :=
  { MsgType := replica.MsgType.MsgSync, From := 1, To := 2, Term := 1, Index := 7,
    ApplyingIndex := 0, CommittedIndex := 0, AppliedIndex := 0, Logs := [] }

/-- A stand-in for `replica.IsEmptyHardState`: the zero value is empty. -/
def zeroHardState (hs : replica.HardState) : Bool :=
  decide (hs = { LeaderId := 0, Term := 0 })

/-- A stand-in for `replica.IsEmptyReady`: no message and an empty hard state. -/
def noMessageReady (rd : replica.Ready) : Bool :=
  rd.Messages.isEmpty && zeroHardState rd.HardState

/-! ## The local ready queue (type `ready` of `ready.go`) -/

/-- The struct `ready`.  The field `state` is left out: it is read and written only by
`has`, `tick` and `reset`. -/
structure ready where
  queue : msgQueue
  offsetIndex : Nat
  endIndex : Nat
  commitIndex : Nat
deriving DecidableEq, Repr

/-- The constructor `newReady`. -/
def newReady : ready :=
  { queue := newMsgQueue, offsetIndex := 0, endIndex := 0, commitIndex := 0 }

/-- The method `ready.slice`: the state after the call and the returned messages. -/
def ready.slice (r : ready) : ready × List UserMessage :=
  let r1 := { r with endIndex := 0 }
  let msgs := r1.queue.sliceWithSize (r1.offsetIndex + 1) (r1.queue.lastIndex + 1) 0
  match msgs.getLast? with
  | some last => ({ r1 with endIndex := last.Index }, msgs)
  | none => (r1, msgs)

/-- The method `ready.sliceWith`; it does not change the state. -/
def ready.sliceWith (r : ready) (startIndex endIndex : Nat) : List UserMessage :=
  let endIndex1 := if endIndex = 0 then r.queue.lastIndex + 1 else endIndex
  r.queue.sliceWithSize startIndex endIndex1 0

/-- The method `ready.truncate`. -/
def ready.truncate (r : ready) : ready :=
  if r.queue.len = 0 then r
  else { r with queue := r.queue.truncateTo (r.endIndex + 1), offsetIndex := r.endIndex }

/-- The method `ready.sliceAndTruncate`: the state after the call and the returned
messages. -/
def ready.sliceAndTruncate (r : ready) : ready × List UserMessage :=
  let msgs := r.queue.sliceWithSize (r.offsetIndex + 1) (r.queue.lastIndex + 1) 0
  let r1 := match msgs.getLast? with
    | some last => { r with endIndex := last.Index }
    | none => r
  (r1.truncate, msgs)

/-- The method `ready.append`. -/
def ready.append (r : ready) (m : UserMessage) : ready :=
  { r with queue := r.queue.append { m with Index := r.queue.lastIndex + 1 } }

/-- One call on a local ready queue. -/
inductive readyCall where
  | append (m : UserMessage)
  | slice
  | sliceWith (startIndex endIndex : Nat)
  | sliceAndTruncate
  | truncate
deriving DecidableEq, Repr

/-- The state after one call. -/
def ready.call (r : ready) : readyCall → ready
  | readyCall.append m => r.append m
  | readyCall.slice => r.slice.1
  | readyCall.sliceWith _ _ => r
  | readyCall.sliceAndTruncate => r.sliceAndTruncate.1
  | readyCall.truncate => r.truncate

/-- The state after a sequence of calls, first call first. -/
def ready.run (r : ready) (calls : List readyCall) : ready :=
  calls.foldl ready.call r

/-- The reachable-state invariant of the local ready queue: `offsetIndex` and `endIndex`
are at most `lastIndex`, and every stored entry has its index above `offsetIndex` and
at most `lastIndex`. -/
def ready.inv (r : ready) : Prop :=
  r.offsetIndex ≤ r.queue.lastIndex ∧ r.endIndex ≤ r.queue.lastIndex ∧
  ∀ m ∈ r.queue.messages, r.offsetIndex < m.Index ∧ m.Index ≤ r.queue.lastIndex

/-- A slice that comes back empty, then an append, then a truncate. -/
def staleTruncateCalls : List readyCall :=
  [readyCall.append broadcastMsg, readyCall.slice, readyCall.truncate, readyCall.slice,
   readyCall.append broadcastMsg]

/-! ## Further inputs for the outbound queue -/

/-- The index argument of an `updateReplicaIndex` call is at most `last`; every other call
passes. -/
def Call.indexWithin : Call → Nat → Bool
  | Call.updateReplicaIndex _ index, last => decide (index ≤ last)
  | _, _ => true

/-- Every `updateReplicaIndex` call of the sequence passes an index that is at most the
`lastIndex` of the queue at the time of the call. -/
def outboundReady.indexArgsBounded (opts : Options) : outboundReady → List Call → Prop
  | _, [] => True
  | o, c :: cs =>
    c.indexWithin o.queue.lastIndex = true ∧
    outboundReady.indexArgsBounded opts (o.call opts c) cs

instance outboundReady.decIndexArgsBounded (opts : Options) :
    ∀ (o : outboundReady) (calls : List Call),
      Decidable (outboundReady.indexArgsBounded opts o calls)
  | _, [] => isTrue trivial
  | o, c :: cs =>
    @instDecidableAnd _ _ _ (outboundReady.decIndexArgsBounded opts (o.call opts c) cs)

/-- Replica 1 has just been acknowledged (inside the forward cooldown), replica 2 is past
the cooldown and behind the queue; replica 1 is visited first. -/
def cooldownFirst : outboundReady :=
  { queue := { messages := [{ Index := 1, ToNode := 0, Size := 1, Payload := 7 }], lastIndex := 1 },
    replicas := [{ nodeId := 1, outboundForwardedIndex := 0, forwardIdleTick := 0,
                   heartbeatIdleTick := 0 },
                 { nodeId := 2, outboundForwardedIndex := 0, forwardIdleTick := 1,
                   heartbeatIdleTick := 1 }],
    offsetIndex := 0, commitIndex := 0 }

/-- The same state as `cooldownFirst`, with replica 2 visited first. -/
def cooldownLast : outboundReady :=
  { cooldownFirst with replicas := cooldownFirst.replicas.reverse }

/-- A fresh queue with one appended broadcast message and no replica. -/
def noReplicaQueue : outboundReady :=
  newOutboundReady.run scenarioOptions [Call.append broadcastMsg]

/-! ## The sub-reactor: proposals, events and tasks -/

namespace cluster

/-- A propose request `proposeReq`: a key and the logs in input order. -/
structure proposeReq where
  key : String
  logs : List replica.Log
deriving DecidableEq, Repr

/-- The constructor `newProposeReq`. -/
def newProposeReq (key : String) (logs : List replica.Log) : proposeReq :=
  { key := key, logs := logs }

/-- The executor closure of a task, as data: `syncGet msg` is the closure that
`handleSyncGet` passes to `setExec` (it captures `msg`); `other` stands for the
executors set elsewhere. -/
inductive taskExec where
  | syncGet (msg : replica.Message)
  | other
deriving DecidableEq, Repr

/-- Modelled from the spec: the task types (`newGetLogsTask`, `newStoreAppendTask`,
`newApplyLogsTask`) are declared outside the sources.  Section 3 describes a task as
"target index, executor closure, completion flag, result-or-error"; get-logs tasks are
"keyed by (requester, index)". -/
structure task where
  requester : Nat
  index : Nat
  exec : taskExec
  finished : Bool
  err : Option String
  resp : replica.Message
deriving DecidableEq, Repr

/-- Modelled from the spec: the key of a task, `(requester, index)`. -/
def task.taskKey (tk : task) : Nat × Nat :=
  (tk.requester, tk.index)

/-- The zero value of `replica.Message`, returned by `resp()` before `setResp`. -/
def zeroMessage : replica.Message :=
  { MsgType := replica.MsgType.MsgOther, From := 0, To := 0, Term := 0, Index := 0,
    ApplyingIndex := 0, CommittedIndex := 0, AppliedIndex := 0, Logs := [] }

/-- Modelled from the spec: `newGetLogsTask(from, index)`, an unfinished task keyed by
requester and index. -/
def newGetLogsTask (requester index : Nat) : task :=
  { requester := requester, index := index, exec := taskExec.other, finished := false,
    err := none, resp := zeroMessage }

/-- Modelled from the spec: the type `handler` is declared outside the sources.  This is
the part of it that `propose`, `handleEvent` and `handleSyncGet` use, after section 4.3:
the replication substrate (of an arbitrary state type), the FIFO pending-propose queue,
the `didPropose` bindings, the wait handles, the task lists, the received messages, the
buffered sync response and the stored last and applied index.  `stepLog` records every
message passed to `step`, in order. -/
structure handlerState (σ : Type) where
  key : String
  substrate : σ
  proposeQueue : List proposeReq
  didProposes : List (String × Nat × Nat)
  waits : List (String × List Nat)
  appendLogStoreTasks : List task
  messages : List Message
  msgSyncResp : Option replica.Message
  getLogsTasks : List task
  applyLogStoreTasks : List task
  lastIndex : Nat
  appliedIndex : Nat
  stepLog : List replica.Message

/-- The collaborators of `reactor_sub.go` that are outside the sources, as parameters:
the substrate behind `handler.step` (an error is a rejection) and
`handler.lastLogIndexAndTerm`, the storage writes behind `setLastIndex` and
`setAppliedIndex` (`some e` is a failure), `handler.getAndMergeLogs` (the logs and the
error it returns), and the two message constructors of package `replica`. -/
structure Collaborators (σ : Type) where
  step : σ → replica.Message → Except String σ
  lastLogIndexAndTerm : σ → Nat × Nat
  setLastIndex : Nat → Option String
  setAppliedIndex : Nat → Option String
  getAndMergeLogs : replica.Message → List replica.Log × Option String
  NewProposeMessageWithLogs : Nat → Nat → List replica.Log → replica.Message
  NewMsgSyncGetResp : Nat → Nat → Nat → List replica.Log → replica.Message

/-- Modelled from the spec: `handler.addPropose`, the request joins the FIFO queue at its
end. -/
def handlerState.addPropose {σ : Type} (h : handlerState σ) (req : proposeReq) :
    handlerState σ :=
  { h with proposeQueue := h.proposeQueue ++ [req] }

/-- Modelled from the spec: `handler.popPropose`, the oldest pending request, if any. -/
def handlerState.popPropose {σ : Type} (h : handlerState σ) :
    Option (proposeReq × handlerState σ) :=
  match h.proposeQueue with
  | [] => none
  | req :: rest => some (req, { h with proposeQueue := rest })

/-- Modelled from the spec: `handler.didPropose(key, id, index)` "records the mapping
used by any waiting caller to correlate a result". -/
def handlerState.didPropose {σ : Type} (h : handlerState σ) (key : String) (id index : Nat) :
    handlerState σ :=
  { h with didProposes := h.didProposes ++ [(key, id, index)] }

/-- Modelled from the spec: `handler.addWait(ctx, key, ids)` registers a wait handle for
the batch. -/
def handlerState.addWait {σ : Type} (h : handlerState σ) (key : String) (ids : List Nat) :
    handlerState σ :=
  { h with waits := h.waits ++ [(key, ids)] }

/-- Modelled from the spec: `handler.step(msg)` "forwards to the substrate and fails if
the substrate rejects the message"; the message is recorded in `stepLog`. -/
def handlerState.step {σ : Type} (C : Collaborators σ) (h : handlerState σ)
    (m : replica.Message) : handlerState σ × Option String :=
  match C.step h.substrate m with
  | Except.ok s => ({ h with substrate := s, stepLog := h.stepLog ++ [m] }, none)
  | Except.error e => ({ h with stepLog := h.stepLog ++ [m] }, some e)

/-- Modelled from the spec: `handler.lastLogIndexAndTerm()`, read from the substrate. -/
def handlerState.lastLogIndexAndTerm {σ : Type} (C : Collaborators σ) (h : handlerState σ) :
    Nat × Nat :=
  C.lastLogIndexAndTerm h.substrate

/-- Modelled from the spec: `handler.addGetLogsTask`, the task joins the set of get-logs
tasks. -/
def handlerState.addGetLogsTask {σ : Type} (h : handlerState σ) (tk : task) : handlerState σ :=
  { h with getLogsTasks := h.getLogsTasks ++ [tk] }

/-- Modelled from the spec: `handler.removeGetLogsTask(key)`. -/
def handlerState.removeGetLogsTask {σ : Type} (h : handlerState σ) (key : Nat × Nat) :
    handlerState σ :=
  { h with getLogsTasks := h.getLogsTasks.filter (fun tk => decide (tk.taskKey ≠ key)) }

/-- The result of `handleProposes` and of the other event handlers: the handler after
the call, the returned boolean, the returned error, and whether the call ended in
`r.Panic` (which does not return). -/
structure eventOutcome (σ : Type) where
  handler : handlerState σ
  hasEvent : Bool
  err : Option String
  panicked : Bool

/-- The inner loop of `handleProposes`: log number `i` of the request gets index
`lastLogIndex + 1 + i` and term `term`, and is reported through `didPropose`.  The
accumulator holds the rewritten logs and the handler. -/
def assignIndexLoop {σ : Type} (key : String) (lastLogIndex term : Nat) :
    Nat → List replica.Log → List replica.Log × handlerState σ →
    List replica.Log × handlerState σ
  | _, [], acc => acc
  | i, lg :: rest, (logs, h) =>
    let lg1 := { lg with Index := lastLogIndex + 1 + i, Term := term }
    assignIndexLoop key lastLogIndex term (i + 1) rest
      (logs ++ [lg1], h.didPropose key lg1.Id lg1.Index)

/-- The loop of `handleProposes` over the pending requests, oldest first; the first
argument is the pending queue, which `popPropose` shortens by one per round. -/
def ReactorSub.handleProposesLoop {σ : Type} (r : ReactorSub) (C : Collaborators σ) :
    List proposeReq → handlerState σ → Int → Bool → eventOutcome σ
  | [], h, _, hasEvent =>
    { handler := { h with proposeQueue := [] }, hasEvent := hasEvent, err := none,
      panicked := false }
  | req :: rest, h, proposeLogCount, hasEvent =>
    let h0 := { h with proposeQueue := rest }
    if req.logs.length = 0 then r.handleProposesLoop C rest h0 proposeLogCount hasEvent
    else
      let proposeLogCount1 := proposeLogCount + (req.logs.length : Int)
      let (lastLogIndex, term) := h0.lastLogIndexAndTerm C
      let (logs, h1) := assignIndexLoop req.key lastLogIndex term 0 req.logs ([], h0)
      match h1.step C (C.NewProposeMessageWithLogs r.opts.NodeId term logs) with
      | (h2, some e) => { handler := h2, hasEvent := false, err := some e, panicked := false }
      | (h2, none) =>
        if r.opts.MaxProposeLogCount > 0 ∧ proposeLogCount1 > r.opts.MaxProposeLogCount then
          { handler := h2, hasEvent := true, err := none, panicked := false }
        else r.handleProposesLoop C rest h2 proposeLogCount1 true

/-- The method `ReactorSub.handleProposes`. -/
def ReactorSub.handleProposes {σ : Type} (r : ReactorSub) (C : Collaborators σ)
    (h : handlerState σ) : eventOutcome σ :=
  r.handleProposesLoop C h.proposeQueue h 0 false

/-- The loop of `handleAppendLogTask` over the append tasks, head first. -/
def ReactorSub.handleAppendLogTaskLoop {σ : Type} (C : Collaborators σ) :
    List task → handlerState σ → Bool → eventOutcome σ
  | [], h, hasEvent => { handler := h, hasEvent := hasEvent, err := none, panicked := false }
  | firstTask :: rest, h, hasEvent =>
    if ! firstTask.finished then
      { handler := h, hasEvent := hasEvent, err := none, panicked := false }
    else
      match firstTask.err with
      | some e => { handler := h, hasEvent := false, err := some e, panicked := true }
      | none =>
        match h.step C firstTask.resp with
        | (h1, some e) => { handler := h1, hasEvent := false, err := some e, panicked := true }
        | (h1, none) =>
          match C.setLastIndex firstTask.resp.Index with
          | some e => { handler := h1, hasEvent := false, err := some e, panicked := true }
          | none =>
            ReactorSub.handleAppendLogTaskLoop C rest
              { h1 with lastIndex := firstTask.resp.Index, appendLogStoreTasks := rest } true

/-- The method `ReactorSub.handleAppendLogTask`. -/
def ReactorSub.handleAppendLogTask {σ : Type} (_r : ReactorSub) (C : Collaborators σ)
    (h : handlerState σ) : eventOutcome σ :=
  ReactorSub.handleAppendLogTaskLoop C h.appendLogStoreTasks h false

/-- The loop of `handleRecvMessages`: a sync response is buffered (the latest one wins),
any other message is stepped and a rejection is only logged. -/
def ReactorSub.handleRecvMessagesLoop {σ : Type} (C : Collaborators σ) :
    List Message → handlerState σ → handlerState σ
  | [], h => h
  | msg :: rest, h =>
    if msg.Message.MsgType = replica.MsgType.MsgSyncResp then
      ReactorSub.handleRecvMessagesLoop C rest { h with msgSyncResp := some msg.Message }
    else ReactorSub.handleRecvMessagesLoop C rest (h.step C msg.Message).1

/-- The method `ReactorSub.handleRecvMessages`; `getMessages` hands over the pending
received messages and empties their queue.  The returned boolean is the constant
`false` of the source. -/
def ReactorSub.handleRecvMessages {σ : Type} (_r : ReactorSub) (C : Collaborators σ)
    (h : handlerState σ) : handlerState σ × Bool :=
  (ReactorSub.handleRecvMessagesLoop C h.messages { h with messages := [] }, false)

/-- The method `ReactorSub.handleSyncTask`. -/
def ReactorSub.handleSyncTask {σ : Type} (_r : ReactorSub) (C : Collaborators σ)
    (h : handlerState σ) : eventOutcome σ :=
  match h.msgSyncResp with
  | some msgSyncResp =>
    match ({ h with msgSyncResp := none } : handlerState σ).step C msgSyncResp with
    | (h1, some e) => { handler := h1, hasEvent := false, err := some e, panicked := false }
    | (h1, none) => { handler := h1, hasEvent := true, err := none, panicked := false }
  | none => { handler := h, hasEvent := false, err := none, panicked := false }

/-- The loop of `handleGetLogTask` over a snapshot of the get-logs tasks. -/
def ReactorSub.handleGetLogTaskLoop {σ : Type} (C : Collaborators σ) :
    List task → handlerState σ → Bool → handlerState σ × Bool
  | [], h, hasEvent => (h, hasEvent)
  | getLogsTask :: rest, h, hasEvent =>
    if getLogsTask.finished then
      let h1 := match getLogsTask.err with
        | some _ => h
        | none => (h.step C getLogsTask.resp).1
      ReactorSub.handleGetLogTaskLoop C rest (h1.removeGetLogsTask getLogsTask.taskKey) true
    else ReactorSub.handleGetLogTaskLoop C rest h hasEvent

/-- The method `ReactorSub.handleGetLogTask`. -/
def ReactorSub.handleGetLogTask {σ : Type} (_r : ReactorSub) (C : Collaborators σ)
    (h : handlerState σ) : eventOutcome σ :=
  let res := ReactorSub.handleGetLogTaskLoop C h.getLogsTasks h false
  { handler := res.1, hasEvent := res.2, err := none, panicked := false }

/-- The loop of `handleApplyLogTask` over the apply tasks, head first. -/
def ReactorSub.handleApplyLogTaskLoop {σ : Type} (C : Collaborators σ) :
    List task → handlerState σ → Bool → eventOutcome σ
  | [], h, hasEvent => { handler := h, hasEvent := hasEvent, err := none, panicked := false }
  | firstTask :: rest, h, hasEvent =>
    if ! firstTask.finished then
      { handler := h, hasEvent := hasEvent, err := none, panicked := false }
    else
      match firstTask.err with
      | some e => { handler := h, hasEvent := false, err := some e, panicked := true }
      | none =>
        match h.step C firstTask.resp with
        | (h1, some e) => { handler := h1, hasEvent := false, err := some e, panicked := true }
        | (h1, none) =>
          match C.setAppliedIndex firstTask.resp.AppliedIndex with
          | some e => { handler := h1, hasEvent := false, err := some e, panicked := true }
          | none =>
            ReactorSub.handleApplyLogTaskLoop C rest
              { h1 with appliedIndex := firstTask.resp.AppliedIndex,
                        applyLogStoreTasks := rest } true

/-- The method `ReactorSub.handleApplyLogTask`. -/
def ReactorSub.handleApplyLogTask {σ : Type} (_r : ReactorSub) (C : Collaborators σ)
    (h : handlerState σ) : eventOutcome σ :=
  ReactorSub.handleApplyLogTaskLoop C h.applyLogStoreTasks h false

/-- One stage of `handleEvent` after another: when the earlier stage returned an error
(or ended in a panic) `handleEvent` returns `(false, err)` at once; otherwise the next
handler runs on the handler left by the earlier one and `hasEvent` accumulates. -/
def eventOutcome.andThen {σ : Type} (o : eventOutcome σ)
    (next : handlerState σ → eventOutcome σ) : eventOutcome σ :=
  match o.err with
  | some e => { handler := o.handler, hasEvent := false, err := some e, panicked := o.panicked }
  | none =>
    let o1 := next o.handler
    match o1.err with
    | some e => { handler := o1.handler, hasEvent := false, err := some e,
                  panicked := o1.panicked }
    | none => { handler := o1.handler, hasEvent := o.hasEvent || o1.hasEvent, err := none,
                panicked := false }

/-- The method `ReactorSub.handleEvent`: proposes, append tasks, received messages, sync
task, get-logs tasks, apply tasks, in this order.  The timing logs behind
`EnableLazyCatchUp` have no effect on the result and are left out. -/
def ReactorSub.handleEvent {σ : Type} (r : ReactorSub) (C : Collaborators σ)
    (h : handlerState σ) : eventOutcome σ :=
  ((((((r.handleProposes C h).andThen (fun h1 => r.handleAppendLogTask C h1)).andThen
    (fun h2 =>
      let res := r.handleRecvMessages C h2
      { handler := res.1, hasEvent := res.2, err := none, panicked := false })).andThen
    (fun h3 => r.handleSyncTask C h3)).andThen
    (fun h4 => r.handleGetLogTask C h4)).andThen
    (fun h5 => r.handleApplyLogTask C h5))

/-- The method `ReactorSub.handleSyncGet`: for `Index > 0` a get-logs task keyed by
`(msg.From, msg.Index)` with the executor closure set; for `Index = 0` nothing. -/
def ReactorSub.handleSyncGet {σ : Type} (_r : ReactorSub) (h : handlerState σ)
    (msg : replica.Message) : handlerState σ :=
  if msg.Index ≤ 0 then h
  else
    let tk := { newGetLogsTask msg.From msg.Index with exec := taskExec.syncGet msg }
    h.addGetLogsTask tk

/-- Running the executor closure of a task: the task after the run, whether `r.advance()`
was called, and the returned error.  For the closure of `handleSyncGet` the response is
set, the task is marked finished and `advance` is raised when the result is not empty. -/
def ReactorSub.runExec {σ : Type} (r : ReactorSub) (C : Collaborators σ) (tk : task) :
    task × Bool × Option String :=
  match tk.exec with
  | taskExec.syncGet msg =>
    let (resultLogs, _err) := C.getAndMergeLogs msg
    let resp := C.NewMsgSyncGetResp r.opts.NodeId msg.From msg.Index resultLogs
    ({ tk with resp := resp, finished := true }, decide (resultLogs.length > 0), none)
  | taskExec.other => (tk, false, none)

/-- A Go call either returns a value or panics with a run-time error. -/
inductive goResult (α : Type) where
  | returned (a : α)
  | panic (msg : String)

/-- Modelled from the spec: `handlers.get(key)`, the handler registered under the key. -/
def handlersGet {σ : Type} (handlers : List (handlerState σ)) (key : String) :
    Option (handlerState σ) :=
  handlers.find? (fun h => decide (h.key = key))

/-- A write through the handler pointer registered under `key`. -/
def handlersModify {σ : Type} (handlers : List (handlerState σ)) (key : String)
    (f : handlerState σ → handlerState σ) : List (handlerState σ) :=
  handlers.map (fun h => if h.key = key then f h else h)

/-- The method `ReactorSub.propose` on the handler registry: the registry after the call
and the returned error, or the run-time panic of `ids[len(ids)-1]` on an empty `ids`. -/
def ReactorSub.propose {σ : Type} (_r : ReactorSub) (handlers : List (handlerState σ))
    (handleKey : String) (logs : List replica.Log) :
    goResult (List (handlerState σ) × Option String) :=
  match handlersGet handlers handleKey with
  | none => goResult.returned (handlers, none)
  | some _ =>
    let ids := logs.map (fun lg => lg.Id)
    match ids.getLast? with
    | none => goResult.panic "index out of range [-1]"
    | some lastId =>
      let key := Nat.repr lastId
      let req := newProposeReq key logs
      goResult.returned (handlersModify handlers handleKey (fun h => h.addPropose req), none)

/-- The method `ReactorSub.proposeAndWait` up to its final `select`: the registry with
the wait handle registered and the request enqueued, or the run-time panic of
`ids[len(ids)-1]` on an empty `ids`; `none` is the early return for a missing handler.
Waiting on the channels is outside the embedding. -/
def ReactorSub.proposeAndWait {σ : Type} (_r : ReactorSub) (handlers : List (handlerState σ))
    (handleKey : String) (logs : List replica.Log) :
    goResult (Option (List (handlerState σ))) :=
  match handlersGet handlers handleKey with
  | none => goResult.returned none
  | some _ =>
    let ids := logs.map (fun lg => lg.Id)
    match ids.getLast? with
    | none => goResult.panic "index out of range [-1]"
    | some lastId =>
      let key := Nat.repr lastId
      let req := newProposeReq key logs
      goResult.returned
        (some (handlersModify handlers handleKey (fun h => (h.addWait key ids).addPropose req)))

end cluster

/-! ## Concrete inputs for the sub-reactor -/

/-- Whether a call ended in a run-time panic. -/
def cluster.goResult.isPanic {α : Type} : cluster.goResult α → Bool
  | cluster.goResult.panic _ => true
  | cluster.goResult.returned _ => false

/-- The logs that `handleProposes` passes on for a request: log number `i` with index
`lastLogIndex + 1 + i` and term `term`, everything else as in the request. -/
def cluster.assignedLogs (lastLogIndex term : Nat) (logs : List replica.Log) :
    List replica.Log :=
  List.zipWith (fun i lg => { lg with Index := lastLogIndex + 1 + i, Term := term })
    (List.range logs.length) logs

/-- The `didPropose` calls that `handleProposes` makes for a request, in order. -/
def cluster.assignedBindings (key : String) (lastLogIndex : Nat) (logs : List replica.Log) :
    List (String × Nat × Nat) :=
  List.zipWith (fun i lg => (key, lg.Id, lastLogIndex + 1 + i)) (List.range logs.length) logs

/-- A message of package `replica` with the given kind, sender, receiver, term, index
and logs. -/
def sampleMessage (kind : replica.MsgType) (sender receiver term index : Nat)
    (logs : List replica.Log) : replica.Message :=
  { MsgType := kind, From := sender, To := receiver, Term := term, Index := index,
    ApplyingIndex := 0, CommittedIndex := 0, AppliedIndex := 0, Logs := logs }

/-- A small substrate whose state is the pair (last log index, term): a message with a
term below the current one is rejected, any other message is accepted and its logs
are counted.  Storage writes succeed and no logs are found by `getAndMergeLogs`. -/
def sampleCollaborators : cluster.Collaborators (Nat × Nat) :=
  { step := fun s m =>
      if m.Term < s.2 then Except.error "stale term" else Except.ok (s.1 + m.Logs.length, s.2),
    lastLogIndexAndTerm := fun s => s,
    setLastIndex := fun _ => none,
    setAppliedIndex := fun _ => none,
    getAndMergeLogs := fun _ => ([], none),
    NewProposeMessageWithLogs := fun nodeId term logs =>
      sampleMessage replica.MsgType.MsgOther nodeId 0 term 0 logs,
    NewMsgSyncGetResp := fun nodeId receiver index logs =>
      sampleMessage replica.MsgType.MsgOther nodeId receiver 0 index logs }

/-- The substrate of `sampleCollaborators`, except that every message is rejected. -/
def rejectingCollaborators : cluster.Collaborators (Nat × Nat) :=
  { sampleCollaborators with step := fun _ _ => Except.error "rejected" }

/-- Three logs as a caller hands them in: ids 11, 12, 13, no index and no term yet. -/
def threeLogs : List replica.Log :=
  [{ Id := 11, Index := 0, Term := 0, Data := 101 },
   { Id := 12, Index := 0, Term := 0, Data := 102 },
   { Id := 13, Index := 0, Term := 0, Data := 103 }]

/-- An empty handler at term 1: nothing pending, no task, last log index 0. -/
def emptyHandler : cluster.handlerState (Nat × Nat) :=
  { key := "channel-1", substrate := (0, 1), proposeQueue := [], didProposes := [], waits := [],
    appendLogStoreTasks := [], messages := [], msgSyncResp := none, getLogsTasks := [],
    applyLogStoreTasks := [], lastIndex := 0, appliedIndex := 0, stepLog := [] }

/-- The empty handler with one pending request of three logs. -/
def proposingHandler : cluster.handlerState (Nat × Nat) :=
  { emptyHandler with proposeQueue := [cluster.newProposeReq "13" threeLogs] }

/-- A received message that is not a sync response. -/
def receivedMsg : cluster.Message :=
  { HandlerKey := "channel-1",
    Message := sampleMessage replica.MsgType.MsgVoteResp 2 1 1 0 [] }

/-- The empty handler with one received message as its only pending work. -/
def receivingHandler : cluster.handlerState (Nat × Nat) :=
  { emptyHandler with messages := [receivedMsg] }

/-- The handler with one pending request and one received message. -/
def busyHandler : cluster.handlerState (Nat × Nat) :=
  { proposingHandler with messages := [receivedMsg] }

/-- A `MsgSyncGet` from node 2 for index 10. -/
def syncGetMsg : replica.Message :=
  sampleMessage replica.MsgType.MsgSyncGet 2 1 1 10 []

/-- Three more logs as a caller hands them in: ids 14, 15, 16, no index and no term
yet. -/
def threeMoreLogs : List replica.Log :=
  [{ Id := 14, Index := 0, Term := 0, Data := 104 },
   { Id := 15, Index := 0, Term := 0, Data := 105 },
   { Id := 16, Index := 0, Term := 0, Data := 106 }]

/-- The empty handler with two pending requests of three logs each. -/
def twoRequestHandler : cluster.handlerState (Nat × Nat) :=
  { emptyHandler with
    proposeQueue :=
      [cluster.newProposeReq "13" threeLogs, cluster.newProposeReq "46" threeMoreLogs] }

/-- The propose message that `handleProposes` steps for the request `req` on the
handler `h`. -/
def cluster.proposeMessage {σ : Type} (r : cluster.ReactorSub) (C : cluster.Collaborators σ)
    (h : cluster.handlerState σ) (req : cluster.proposeReq) : replica.Message :=
  C.NewProposeMessageWithLogs r.opts.NodeId (C.lastLogIndexAndTerm h.substrate).2
    (cluster.assignedLogs (C.lastLogIndexAndTerm h.substrate).1
      (C.lastLogIndexAndTerm h.substrate).2 req.logs)

/-- The handler once `req` has been popped (with `rest` left pending), its logs have been
reported through `didPropose` and its propose message has been passed to `step`; the
substrate is not yet updated. -/
def cluster.afterPropose {σ : Type} (r : cluster.ReactorSub) (C : cluster.Collaborators σ)
    (h : cluster.handlerState σ) (req : cluster.proposeReq) (rest : List cluster.proposeReq) :
    cluster.handlerState σ :=
  { h with proposeQueue := rest,
           didProposes := h.didProposes ++
             cluster.assignedBindings req.key (C.lastLogIndexAndTerm h.substrate).1 req.logs,
           stepLog := h.stepLog ++ [cluster.proposeMessage r C h req] }

/-! ## The bounded double-buffered message queue of the cluster server -/

namespace clusterserver

/-- Modelled from the spec: `proto.Message` is outside the sources; the queue uses only
the size of a message (`m.Size()`), `Content` stands for the rest. -/
structure Message where
  Size : Nat
  Content : Nat
deriving DecidableEq, Repr

/-- Modelled from the spec: the rate limiter `q.rl`, used through `RateLimited()` and
`Get()` in `message_queue_test.go`: the bytes held and the byte limit, a limit of 0
meaning that the limiter is off. -/
structure rateLimiter where
  size : Nat
  maxSize : Nat
deriving DecidableEq, Repr

/-- Modelled from the spec: the limiter is on when a limit was given. -/
def rateLimiter.Enabled (rl : rateLimiter) : Bool :=
  decide (rl.maxSize > 0)

/-- Modelled from the spec: `RateLimited()`, the bytes held exceed the limit. -/
def rateLimiter.RateLimited (rl : rateLimiter) : Bool :=
  decide (rl.size > rl.maxSize)

/-- Modelled from the spec: `Get()`, the bytes held. -/
def rateLimiter.Get (rl : rateLimiter) : Nat :=
  rl.size

/-- Modelled from the spec: the type `messageQueue` is outside the sources; only
`message_queue_test.go` is available.  The test reads the fields `left`, `right`, `idx`,
`leftInWrite` and `rl`: two buffers of the given size, of which one is being written,
the number of messages in the written buffer, and the rate limiter. -/
structure messageQueue where
  size : Nat
  left : List (Option Message)
  right : List (Option Message)
  leftInWrite : Bool
  stopped : Bool
  idx : Nat
  oldIdx : Nat
  cycle : Nat
  lazyFreeCycle : Nat
  rl : rateLimiter
deriving DecidableEq, Repr

/-- Modelled from the spec: `newMessageQueue(size, ch, lazyFreeCycle, maxMemorySize)`,
both buffers allocated with `size` empty slots.  The flag `ch` only asks for a
notification channel, which is outside the embedding. -/
def newMessageQueue (size : Nat) (_ch : Bool) (lazyFreeCycle maxMemorySize : Nat) :
    messageQueue :=
  { size := size, left := List.replicate size none, right := List.replicate size none,
    leftInWrite := false, stopped := false, idx := 0, oldIdx := 0, cycle := 0,
    lazyFreeCycle := lazyFreeCycle, rl := { size := 0, maxSize := maxMemorySize } }

/-- Modelled from the spec: the buffer being written. -/
def messageQueue.targetQueue (q : messageQueue) : List (Option Message) :=
  if q.leftInWrite then q.left else q.right

/-- Modelled from the spec: `add`, returning the queue and the pair (added, stopped).
A full or stopped queue and a rate-limited message are refused; otherwise the message
goes into slot `idx` of the written buffer. -/
def messageQueue.add (q : messageQueue) (msg : Message) : messageQueue × Bool × Bool :=
  if q.idx ≥ q.size then (q, false, q.stopped)
  else if q.stopped then (q, false, true)
  else if q.rl.Enabled && q.rl.RateLimited then (q, false, false)
  else
    let rl1 := if q.rl.Enabled then { q.rl with size := q.rl.size + msg.Size } else q.rl
    let q1 :=
      if q.leftInWrite then { q with left := q.left.set q.idx (some msg) }
      else { q with right := q.right.set q.idx (some msg) }
    ({ q1 with idx := q.idx + 1, rl := rl1 }, true, false)

/-- Modelled from the spec: `get`, returning the queue and the messages added since the
last `get`: the buffers swap roles, `idx` restarts at 0 and the rate limiter is
reset. -/
def messageQueue.get (q : messageQueue) : messageQueue × List (Option Message) :=
  ({ q with cycle := q.cycle + 1, idx := 0, leftInWrite := ! q.leftInWrite, oldIdx := q.idx,
            rl := { q.rl with size := 0 } },
   q.targetQueue.take q.idx)

/-- A run of `add` calls: the queue after them and the returned pairs, in order. -/
def messageQueue.addAll : messageQueue → List Message → messageQueue × List (Bool × Bool)
  | q, [] => (q, [])
  | q, m :: ms =>
    ((messageQueue.addAll (q.add m).1 ms).1,
     (q.add m).2 :: (messageQueue.addAll (q.add m).1 ms).2)

end clusterserver

/-! ## Theorems -/

theorem checkCommit_commitIndex_le (o : outboundReady) :
    o.commitIndex ≤ o.checkCommit.commitIndex := by
  unfold outboundReady.checkCommit
  simp only
  split
  · simp only [outboundReady.commit]; omega
  · exact le_refl _

/-- C1: after addNewReplica 1, addNewReplica 2, one append and updateReplicaIndex 1 1 on a
fresh queue, the code has commitIndex 1 although replica 2 is tracked with acknowledged
index 0, so commitIndex is above the minimum acknowledged index. -/
theorem c1_commitIndex_above_min_forwarded :
    (newOutboundReady.run scenarioOptions oneAckOfTwo).commitIndex = 1 ∧
    replicaKeys (newOutboundReady.run scenarioOptions oneAckOfTwo).replicas = [1, 2] ∧
    (newOutboundReady.run scenarioOptions oneAckOfTwo).replicas.map
      (fun r => r.outboundForwardedIndex) = [1, 0] ∧
    ¬ (newOutboundReady.run scenarioOptions oneAckOfTwo).commitBelowReplicas := by
  decide

/-- C2: in scenario 1 the code has commitIndex 5, not 2, after the acknowledgements 5, 5
and 2; the eviction of the third replica leaves commitIndex at 5. -/
theorem c2_scenario1_commitIndex :
    (newOutboundReady.run scenarioOptions scenario1Acks).commitIndex = 5 ∧
    (newOutboundReady.run scenarioOptions scenario1Acks).replicas.map
      (fun r => (r.nodeId, r.outboundForwardedIndex)) = [(1, 5), (2, 5), (3, 2)] ∧
    replicaKeys (newOutboundReady.run scenarioOptions (scenario1Acks ++ scenario1Evict)).replicas
      = [1, 2] ∧
    (newOutboundReady.run scenarioOptions (scenario1Acks ++ scenario1Evict)).commitIndex = 5 := by
  decide

/-- C3: no call of append, addNewReplica, updateReplicaIndex, updateReplicaHeartbeat,
ready or tick lowers commitIndex. -/
theorem c3_commitIndex_monotone (opts : Options) (o : outboundReady) (c : Call) :
    o.commitIndex ≤ (o.call opts c).commitIndex := by
  cases c with
  | append m => exact le_refl _
  | addNewReplica n => exact le_refl _
  | updateReplicaIndex n i =>
    simp only [outboundReady.call, outboundReady.updateReplicaIndex]
    split
    · exact le_refl _
    · simp only
      split
      · exact checkCommit_commitIndex_le
          ({ o with replicas := modifyReplica o.replicas n
                      (fun r => { r with outboundForwardedIndex := i }) } : outboundReady)
      · exact le_refl _
  | updateReplicaHeartbeat n =>
    simp only [outboundReady.call, outboundReady.updateReplicaHeartbeat]
    split <;> exact le_refl _
  | ready =>
    simp only [outboundReady.call, outboundReady.ready]
    split <;> exact le_refl _
  | tick => exact le_refl _

theorem pairwise_getLast_bound {l : List UserMessage} {x m : UserMessage}
    (hp : l.Pairwise (fun a b => a.Index < b.Index)) (hl : l.getLast? = some x) (hm : m ∈ l) :
    m.Index ≤ x.Index := by
  induction l with
  | nil => cases hm
  | cons a t ih =>
    cases t with
    | nil =>
      simp at hl hm
      subst hl; subst hm; exact le_refl _
    | cons b t2 =>
      rw [List.getLast?_cons_cons] at hl
      rw [List.pairwise_cons] at hp
      rcases List.mem_cons.mp hm with h | h
      · subst h
        have hx : x ∈ b :: t2 := List.mem_of_getLast?_eq_some hl
        exact le_of_lt (hp.1 x hx)
      · exact ih hp.2 hl h

theorem ready_nil_of_slice_nil (opts : Options) (o : outboundReady)
    (h : o.queue.sliceWithSize (o.offsetIndex + 1) (o.queue.lastIndex + 1) 0 = []) :
    o.ready opts = (o, []) := by
  simp [outboundReady.ready, h]

theorem slice_after_ready_nil (opts : Options) (o : outboundReady) (hq : o.queue.wf) :
    (o.ready opts).1.queue.sliceWithSize ((o.ready opts).1.offsetIndex + 1)
      ((o.ready opts).1.queue.lastIndex + 1) 0 = [] := by
  cases hs : (o.queue.sliceWithSize (o.offsetIndex + 1) (o.queue.lastIndex + 1) 0).getLast? with
  | none =>
    have hnil := List.getLast?_eq_none_iff.mp hs
    rw [ready_nil_of_slice_nil opts o hnil]
    exact hnil
  | some last =>
    have hfst : (o.ready opts).1 = { o with queue := o.queue.truncateTo (last.Index + 1) } := by
      simp [outboundReady.ready, hs]
    rw [hfst]
    simp only [msgQueue.sliceWithSize, msgQueue.truncateTo, if_true]
    rw [List.filter_filter, List.filter_eq_nil_iff]
    intro m hm hcond
    simp only [Bool.and_eq_true, decide_eq_true_eq] at hcond
    have hmem : m ∈ o.queue.sliceWithSize (o.offsetIndex + 1) (o.queue.lastIndex + 1) 0 := by
      simp only [msgQueue.sliceWithSize, if_true]
      exact List.mem_filter.mpr ⟨hm, by simpa using hcond.1⟩
    have hsorted : (o.queue.sliceWithSize (o.offsetIndex + 1) (o.queue.lastIndex + 1) 0).Pairwise
        (fun a b => a.Index < b.Index) := by
      simp only [msgQueue.sliceWithSize, if_true]
      exact hq.1.sublist (List.filter_sublist _)
    have := pairwise_getLast_bound hsorted hs hmem
    omega

/-- C4: on a queue with strictly increasing indices, a second ready() directly after a
first one returns no action, so no message of the first call is returned again. -/
theorem c4_ready_dequeues (opts : Options) (o : outboundReady) (hq : o.queue.wf) :
    ((o.ready opts).1.ready opts).2 = [] ∧
    ∀ a1 ∈ (o.ready opts).2, ∀ m ∈ a1.Messages,
      ∀ a2 ∈ ((o.ready opts).1.ready opts).2, m ∉ a2.Messages := by
  have h := ready_nil_of_slice_nil opts (o.ready opts).1 (slice_after_ready_nil opts o hq)
  constructor
  · rw [h]
  · intro a1 _ m _ a2 ha2
    rw [h] at ha2
    cases ha2

theorem readyToNodeLoop_eq (opts : Options) (msgs : List UserMessage) (acc : List UserAction)
    (b : Bool) :
    readyToNodeLoop opts msgs (acc, b) =
      (acc ++ (msgs.filter (fun m => decide (m.ToNode ≠ 0))).map (toNodeAction opts),
       b || msgs.any (fun m => decide (m.ToNode ≠ 0))) := by
  induction msgs generalizing acc b with
  | nil => simp [readyToNodeLoop]
  | cons m rest ih =>
    by_cases h : m.ToNode = 0
    · simp [readyToNodeLoop, h, ih]
    · simp [readyToNodeLoop, h, ih, toNodeAction]

theorem readyNewMsgsLoop_eq (msgs acc : List UserMessage) :
    readyNewMsgsLoop msgs acc = acc ++ msgs.filter (fun m => decide (m.ToNode = 0)) := by
  induction msgs generalizing acc with
  | nil => simp [readyNewMsgsLoop]
  | cons m rest ih =>
    by_cases h : m.ToNode = 0
    · simp [readyNewMsgsLoop, h, ih]
    · simp [readyNewMsgsLoop, h, ih]

theorem readyReplicaLoop_eq (opts : Options) (newMsgs : List UserMessage)
    (rs : List replicaState) (acc : List UserAction) :
    readyReplicaLoop opts newMsgs rs acc = acc ++ rs.map (replicaAction opts newMsgs) := by
  induction rs generalizing acc with
  | nil => simp [readyReplicaLoop]
  | cons r rest ih => simp [readyReplicaLoop, ih, replicaAction]

theorem ready_actions_eq (opts : Options) (o : outboundReady) (hne : o.unsent ≠ []) :
    (o.ready opts).2 =
      (o.unsent.filter (fun m => decide (m.ToNode ≠ 0))).map (toNodeAction opts) ++
      o.replicas.map (replicaAction opts (o.unsent.filter (fun m => decide (m.ToNode = 0)))) := by
  unfold outboundReady.unsent at hne ⊢
  cases hs : (o.queue.sliceWithSize (o.offsetIndex + 1) (o.queue.lastIndex + 1) 0).getLast? with
  | none => exact absurd (List.getLast?_eq_none_iff.mp hs) hne
  | some last =>
    simp only [outboundReady.ready, hs, readyToNodeLoop_eq, readyReplicaLoop_eq,
      readyNewMsgsLoop_eq, List.nil_append, Bool.false_or]
    congr 2
    split
    · rfl
    · rename_i hany
      have hall : List.filter (fun m => decide (m.ToNode = 0))
          (o.queue.sliceWithSize (o.offsetIndex + 1) (o.queue.lastIndex + 1) 0) =
          o.queue.sliceWithSize (o.offsetIndex + 1) (o.queue.lastIndex + 1) 0 := by
        rw [List.filter_eq_self]
        intro m hm
        simp only [List.any_eq_true, not_exists, not_and] at hany
        have := hany m hm
        simpa using this
      rw [hall]

theorem filter_key_length_one {rs : List replicaState} {r : replicaState}
    (hnd : (replicaKeys rs).Nodup) (hr : r ∈ rs) :
    (rs.filter (fun x => decide (x.nodeId = r.nodeId))).length = 1 := by
  induction rs with
  | nil => cases hr
  | cons a t ih =>
    simp only [replicaKeys, List.map_cons, List.nodup_cons] at hnd
    rcases List.mem_cons.mp hr with h | h
    · subst h
      have hnil : t.filter (fun x => decide (x.nodeId = r.nodeId)) = [] := by
        rw [List.filter_eq_nil_iff]
        intro x hx hxe
        simp only [decide_eq_true_eq] at hxe
        exact hnd.1 (List.mem_map.mpr ⟨x, hx, hxe⟩)
      simp [List.filter_cons, hnil]
    · have hne : a.nodeId ≠ r.nodeId := by
        intro he
        exact hnd.1 (List.mem_map.mpr ⟨r, h, he.symm⟩)
      simp [List.filter_cons, hne, ih hnd.2 h]

/-- C5: routing of ready() on a non-empty unsent batch.  Every action is an outbound
forward from the local node; a message with a destination node occurs only in actions
addressed to that node (and in at least one); a message without destination occurs
only in actions whose Messages are all destination-free unsent messages in queue
order, and for every tracked replica exactly one action addressed to it carries it. -/
theorem c5_ready_routing (opts : Options) (o : outboundReady) (hwf : o.wf)
    (hne : o.unsent ≠ []) :
    (∀ a ∈ (o.ready opts).2,
        a.ActionType = UserActionType.UserActionOutboundForward ∧ a.From = opts.NodeId) ∧
    (∀ a ∈ (o.ready opts).2, ∀ m ∈ a.Messages, m.ToNode ≠ 0 → a.To = m.ToNode) ∧
    (∀ m ∈ o.unsent, m.ToNode ≠ 0 →
        ∃ a ∈ (o.ready opts).2, a.To = m.ToNode ∧ m ∈ a.Messages) ∧
    (∀ a ∈ (o.ready opts).2, ∀ m ∈ a.Messages, m.ToNode = 0 →
        a.Messages = o.unsent.filter (fun x => decide (x.ToNode = 0))) ∧
    (∀ r ∈ o.replicas, ∀ m ∈ o.unsent, m.ToNode = 0 →
        ((o.ready opts).2.filter
          (fun a => decide (a.To = r.nodeId ∧ m ∈ a.Messages))).length = 1) := by
  rw [ready_actions_eq opts o hne]
  refine ⟨?_, ?_, ?_, ?_, ?_⟩
  · intro a ha
    rcases List.mem_append.mp ha with h | h
    · obtain ⟨m, _, rfl⟩ := List.mem_map.mp h
      exact ⟨rfl, rfl⟩
    · obtain ⟨r, _, rfl⟩ := List.mem_map.mp h
      exact ⟨rfl, rfl⟩
  · intro a ha m hm hm0
    rcases List.mem_append.mp ha with h | h
    · obtain ⟨m1, _, rfl⟩ := List.mem_map.mp h
      simp only [toNodeAction, List.mem_singleton] at hm ⊢
      rw [hm]
    · obtain ⟨r, _, rfl⟩ := List.mem_map.mp h
      simp only [replicaAction, List.mem_filter, decide_eq_true_eq] at hm
      exact absurd hm.2 hm0
  · intro m hm hm0
    refine ⟨toNodeAction opts m, ?_, rfl, ?_⟩
    · apply List.mem_append_left
      exact List.mem_map.mpr ⟨m, List.mem_filter.mpr ⟨hm, by simpa using hm0⟩, rfl⟩
    · simp [toNodeAction]
  · intro a ha m hm hm0
    rcases List.mem_append.mp ha with h | h
    · obtain ⟨m1, hm1, rfl⟩ := List.mem_map.mp h
      simp only [toNodeAction, List.mem_singleton] at hm
      subst hm
      have := (List.mem_filter.mp hm1).2
      simp only [decide_eq_true_eq] at this
      exact absurd hm0 this
    · obtain ⟨r, _, rfl⟩ := List.mem_map.mp h
      rfl
  · intro r hr m hm hm0
    have hmem : m ∈ o.unsent.filter (fun x => decide (x.ToNode = 0)) :=
      List.mem_filter.mpr ⟨hm, by simpa using hm0⟩
    rw [List.filter_append]
    have hleft : List.filter (fun a => decide (a.To = r.nodeId ∧ m ∈ a.Messages))
        ((o.unsent.filter (fun m => decide (m.ToNode ≠ 0))).map (toNodeAction opts)) = [] := by
      rw [List.filter_eq_nil_iff]
      intro a ha hcond
      obtain ⟨m1, hm1, rfl⟩ := List.mem_map.mp ha
      simp only [toNodeAction, List.mem_singleton, decide_eq_true_eq] at hcond
      have h1 := (List.mem_filter.mp hm1).2
      simp only [decide_eq_true_eq] at h1
      exact h1 (hcond.2 ▸ hm0)
    rw [hleft, List.nil_append, List.filter_map, List.length_map]
    have hcongr : List.filter
        ((fun a => decide (a.To = r.nodeId ∧ m ∈ a.Messages)) ∘
          replicaAction opts (o.unsent.filter (fun x => decide (x.ToNode = 0)))) o.replicas =
        List.filter (fun x => decide (x.nodeId = r.nodeId)) o.replicas := by
      apply List.filter_congr
      intro x _
      simp [replicaAction, hmem]
    rw [hcongr]
    exact filter_key_length_one hwf hr

theorem hasLoop_true (opts : Options) (o : outboundReady) (rs : List replicaState)
    (h : hasLoop opts o rs = true) :
    ∃ r ∈ rs, opts.OutboundForwardIntervalTick ≤ r.forwardIdleTick ∧
      o.commitIndex ≤ r.outboundForwardedIndex ∧ r.outboundForwardedIndex < o.queue.lastIndex := by
  induction rs with
  | nil => simp [hasLoop] at h
  | cons r rest ih =>
    unfold hasLoop at h
    split at h
    · cases h
    · split at h
      · rename_i h1 h2
        exact ⟨r, List.mem_cons_self _ _, not_lt.mp h1, h2.1, h2.2⟩
      · obtain ⟨x, hx, hp⟩ := ih h
        exact ⟨x, List.mem_cons_of_mem _ hx, hp⟩

/-- C6: when has() returns true, some tracked replica is past its forward-idle cooldown
and has its acknowledged index in the range from commitIndex up to, but excluding,
the last index of the queue; in particular the replica set is then not empty. -/
theorem c6_has_true_only_with_work (opts : Options) (o : outboundReady)
    (h : o.has opts = true) :
    (∃ r ∈ o.replicas, opts.OutboundForwardIntervalTick ≤ r.forwardIdleTick ∧
      o.commitIndex ≤ r.outboundForwardedIndex ∧
      r.outboundForwardedIndex < o.queue.lastIndex) ∧
    o.replicas ≠ [] := by
  have hex := hasLoop_true opts o o.replicas h
  refine ⟨hex, ?_⟩
  intro hnil
  obtain ⟨r, hr, _⟩ := hex
  rw [hnil] at hr
  cases hr

theorem checkCommit_replicas (o : outboundReady) : o.checkCommit.replicas = o.replicas := by
  unfold outboundReady.checkCommit
  simp only
  split <;> rfl

theorem lookupReplica_some {rs : List replicaState} {n : Nat} {r : replicaState}
    (h : lookupReplica rs n = some r) : r ∈ rs ∧ r.nodeId = n := by
  unfold lookupReplica at h
  exact ⟨List.mem_of_find?_eq_some h, by simpa using List.find?_some h⟩

theorem lookupReplica_none {rs : List replicaState} {n : Nat}
    (h : lookupReplica rs n = none) : ∀ r ∈ rs, r.nodeId ≠ n := by
  unfold lookupReplica at h
  intro r hr
  have := List.find?_eq_none.mp h r hr
  simpa using this

theorem replica_eq_of_key {rs : List replicaState} (hnd : (replicaKeys rs).Nodup)
    {a b : replicaState} (ha : a ∈ rs) (hb : b ∈ rs) (h : a.nodeId = b.nodeId) : a = b :=
  List.inj_on_of_nodup_map hnd ha hb h

/-- The replica map after `updateReplicaIndex`, on a well-formed map. -/
theorem updateReplicaIndex_replicas (o : outboundReady) (nodeId index : Nat) (hwf : o.wf) :
    (o.updateReplicaIndex nodeId index).replicas =
      o.replicas.map (fun r => if r.nodeId = nodeId then
          { r with outboundForwardedIndex := max r.outboundForwardedIndex index,
                   forwardIdleTick := 0 }
        else r) := by
  unfold outboundReady.updateReplicaIndex
  cases hl : lookupReplica o.replicas nodeId with
  | none =>
    have hno := lookupReplica_none hl
    simp only
    symm
    conv_rhs => rw [← List.map_id o.replicas]
    apply List.map_congr_left
    intro r hr
    simp [hno r hr]
  | some replica =>
    obtain ⟨hmem, hkey⟩ := lookupReplica_some hl
    simp only
    split
    · rename_i hgt
      rw [checkCommit_replicas]
      simp only [modifyReplica, List.map_map]
      apply List.map_congr_left
      intro r hr
      by_cases hk : r.nodeId = nodeId
      · have hr_eq : r = replica := replica_eq_of_key hwf hr hmem (hk.trans hkey.symm)
        subst hr_eq
        have hmax : max r.outboundForwardedIndex index = index := max_eq_right (le_of_lt hgt)
        simp [hk, hmax]
      · simp [hk]
    · rename_i hle
      simp only [modifyReplica]
      apply List.map_congr_left
      intro r hr
      by_cases hk : r.nodeId = nodeId
      · have hr_eq : r = replica := replica_eq_of_key hwf hr hmem (hk.trans hkey.symm)
        subst hr_eq
        have hmax : max r.outboundForwardedIndex index = r.outboundForwardedIndex :=
          max_eq_left (not_lt.mp hle)
        simp [hk, hmax]
      · simp [hk]

/-- C7: updateReplicaIndex sets the acknowledged index of the replica stored under nodeId
to the maximum of its old value and index and its forwardIdleTick to 0, keeps its
heartbeatIdleTick and every other replica, and leaves the whole state unchanged when
nodeId is not tracked. -/
theorem c7_updateReplicaIndex_effect (o : outboundReady) (nodeId index : Nat) (hwf : o.wf) :
    (o.updateReplicaIndex nodeId index).replicas =
      o.replicas.map (fun r => if r.nodeId = nodeId then
          { nodeId := r.nodeId,
            outboundForwardedIndex := max r.outboundForwardedIndex index,
            forwardIdleTick := 0,
            heartbeatIdleTick := r.heartbeatIdleTick }
        else r) ∧
    (lookupReplica o.replicas nodeId = none → o.updateReplicaIndex nodeId index = o) := by
  refine ⟨updateReplicaIndex_replicas o nodeId index hwf, ?_⟩
  intro hl
  simp [outboundReady.updateReplicaIndex, hl]

theorem mem_tickLoop (opts : Options) (rs : List replicaState) (x : replicaState) :
    x ∈ tickLoop opts rs ↔
      ∃ r ∈ rs, r.heartbeatIdleTick + 1 < opts.NodeHeartbeatTimeoutTick ∧
        x = { r with heartbeatIdleTick := r.heartbeatIdleTick + 1,
                     forwardIdleTick := r.forwardIdleTick + 1 } := by
  induction rs with
  | nil => simp [tickLoop]
  | cons a t ih =>
    unfold tickLoop
    simp only
    split
    · rename_i hge
      rw [ih]
      constructor
      · rintro ⟨r, hr, hp⟩
        exact ⟨r, List.mem_cons_of_mem _ hr, hp⟩
      · rintro ⟨r, hr, hlt, hx⟩
        rcases List.mem_cons.mp hr with h | h
        · subst h; omega
        · exact ⟨r, h, hlt, hx⟩
    · rename_i hlt
      rw [List.mem_cons, ih]
      constructor
      · rintro (h | ⟨r, hr, hp⟩)
        · exact ⟨a, List.mem_cons_self _ _, by omega, h⟩
        · exact ⟨r, List.mem_cons_of_mem _ hr, hp⟩
      · rintro ⟨r, hr, hlt2, hx⟩
        rcases List.mem_cons.mp hr with h | h
        · subst h; exact Or.inl hx
        · exact Or.inr ⟨r, h, hlt2, hx⟩

theorem tickLoop_keys_sublist (opts : Options) (rs : List replicaState) :
    (replicaKeys (tickLoop opts rs)).Sublist (replicaKeys rs) := by
  induction rs with
  | nil => simp [tickLoop, replicaKeys]
  | cons a t ih =>
    unfold tickLoop
    simp only
    split
    · exact List.Sublist.cons _ ih
    · simp only [replicaKeys, List.map_cons]
      exact List.Sublist.cons₂ _ ih

theorem insertReplica_keys (rs : List replicaState) (r : replicaState) :
    replicaKeys (insertReplica rs r) =
      if r.nodeId ∈ replicaKeys rs then replicaKeys rs else replicaKeys rs ++ [r.nodeId] := by
  induction rs with
  | nil => simp [insertReplica, replicaKeys]
  | cons a t ih =>
    unfold insertReplica
    by_cases h : a.nodeId = r.nodeId
    · simp [h, replicaKeys]
    · have h2 : ¬ r.nodeId = a.nodeId := fun e => h e.symm
      simp only [h, if_false]
      simp only [replicaKeys, List.map_cons, List.mem_cons, h2, false_or] at ih ⊢
      rw [ih]
      split <;> simp

theorem insertReplica_nodup (rs : List replicaState) (r : replicaState)
    (h : (replicaKeys rs).Nodup) : (replicaKeys (insertReplica rs r)).Nodup := by
  rw [insertReplica_keys]
  split
  · exact h
  · rename_i hn
    exact List.Nodup.append h (List.nodup_singleton _) (by simpa using hn)

theorem mem_insertReplica_of_mem {rs : List replicaState} {r x : replicaState}
    (hx : x ∈ rs) (hne : x.nodeId ≠ r.nodeId) : x ∈ insertReplica rs r := by
  induction rs with
  | nil => cases hx
  | cons a t ih =>
    unfold insertReplica
    rcases List.mem_cons.mp hx with h | h
    · subst h
      simp [hne]
    · split
      · exact List.mem_cons_of_mem _ h
      · exact List.mem_cons_of_mem _ (ih h)

theorem mem_insertReplica {rs : List replicaState} {r x : replicaState}
    (hx : x ∈ insertReplica rs r) : x = r ∨ x ∈ rs := by
  induction rs with
  | nil =>
    simp only [insertReplica, List.mem_singleton] at hx
    exact Or.inl hx
  | cons a t ih =>
    unfold insertReplica at hx
    split at hx
    · rcases List.mem_cons.mp hx with h | h
      · exact Or.inl h
      · exact Or.inr (List.mem_cons_of_mem _ h)
    · rcases List.mem_cons.mp hx with h | h
      · exact Or.inr (h ▸ List.mem_cons_self _ _)
      · rcases ih h with h2 | h2
        · exact Or.inl h2
        · exact Or.inr (List.mem_cons_of_mem _ h2)

theorem modifyReplica_keys (rs : List replicaState) (n : Nat) (f : replicaState → replicaState)
    (hf : ∀ r, (f r).nodeId = r.nodeId) :
    replicaKeys (modifyReplica rs n f) = replicaKeys rs := by
  simp only [replicaKeys, modifyReplica, List.map_map]
  apply List.map_congr_left
  intro r _
  simp only [Function.comp]
  split
  · exact hf r
  · rfl

theorem ready_replicas (opts : Options) (o : outboundReady) :
    (o.ready opts).1.replicas = o.replicas := by
  unfold outboundReady.ready
  simp only
  split <;> rfl

theorem updateReplicaIndex_keys (o : outboundReady) (n i : Nat) :
    replicaKeys (o.updateReplicaIndex n i).replicas = replicaKeys o.replicas := by
  unfold outboundReady.updateReplicaIndex
  split
  · rfl
  · simp only
    rw [modifyReplica_keys]
    · split
      · rw [checkCommit_replicas, modifyReplica_keys]
        intro r; rfl
      · rfl
    · intro r; rfl

theorem updateReplicaHeartbeat_keys (o : outboundReady) (n : Nat) :
    replicaKeys (o.updateReplicaHeartbeat n).replicas = replicaKeys o.replicas := by
  unfold outboundReady.updateReplicaHeartbeat
  split
  · rfl
  · simp only
    rw [modifyReplica_keys]
    intro r; rfl

theorem call_wf (opts : Options) (o : outboundReady) (c : Call) (hwf : o.wf) :
    (o.call opts c).wf := by
  unfold outboundReady.wf at hwf ⊢
  cases c with
  | append m => exact hwf
  | addNewReplica n => exact insertReplica_nodup _ _ hwf
  | updateReplicaIndex n i =>
    simp only [outboundReady.call]
    rw [updateReplicaIndex_keys]; exact hwf
  | updateReplicaHeartbeat n =>
    simp only [outboundReady.call]
    rw [updateReplicaHeartbeat_keys]; exact hwf
  | ready =>
    simp only [outboundReady.call]
    rw [ready_replicas]; exact hwf
  | tick => exact hwf.sublist (tickLoop_keys_sublist opts o.replicas)

theorem call_untracked (opts : Options) (o : outboundReady) (c : Call) (nodeId : Nat)
    (hun : nodeId ∉ replicaKeys o.replicas) (hc : c ≠ Call.addNewReplica nodeId) :
    nodeId ∉ replicaKeys (o.call opts c).replicas := by
  cases c with
  | append m => exact hun
  | addNewReplica n =>
    have hne : nodeId ≠ n := fun e => hc (by rw [e])
    simp only [outboundReady.call, outboundReady.addNewReplica]
    rw [insertReplica_keys]
    split
    · exact hun
    · simp only [List.mem_append, List.mem_singleton, newReplicaState, not_or]
      exact ⟨hun, hne⟩
  | updateReplicaIndex n i =>
    simp only [outboundReady.call]
    rw [updateReplicaIndex_keys]; exact hun
  | updateReplicaHeartbeat n =>
    simp only [outboundReady.call]
    rw [updateReplicaHeartbeat_keys]; exact hun
  | ready =>
    simp only [outboundReady.call]
    rw [ready_replicas]; exact hun
  | tick =>
    intro hin
    exact hun ((tickLoop_keys_sublist opts o.replicas).subset hin)

theorem call_trackedAt (opts : Options) (o : outboundReady) (c : Call) (nodeId : Nat) (n : Int)
    (hwf : o.wf) (ht : o.trackedAt nodeId n) (htick : c ≠ Call.tick)
    (hhb : c ≠ Call.updateReplicaHeartbeat nodeId) (hadd : c ≠ Call.addNewReplica nodeId) :
    (o.call opts c).trackedAt nodeId n := by
  obtain ⟨r, hr, hkey, hn⟩ := ht
  cases c with
  | append m => exact ⟨r, hr, hkey, hn⟩
  | addNewReplica k =>
    have hne : r.nodeId ≠ k := fun e => hadd (by rw [← hkey, e])
    exact ⟨r, mem_insertReplica_of_mem hr (by simpa [newReplicaState] using hne), hkey, hn⟩
  | updateReplicaIndex k i =>
    simp only [outboundReady.call, outboundReady.trackedAt]
    rw [updateReplicaIndex_replicas o k i hwf]
    refine ⟨_, List.mem_map.mpr ⟨r, hr, rfl⟩, ?_, ?_⟩
    · split <;> exact hkey
    · split <;> exact hn
  | updateReplicaHeartbeat k =>
    have hne : r.nodeId ≠ k := fun e => hhb (by rw [← hkey, e])
    simp only [outboundReady.call, outboundReady.updateReplicaHeartbeat]
    split
    · exact ⟨r, hr, hkey, hn⟩
    · refine ⟨r, ?_, hkey, hn⟩
      simp only [modifyReplica]
      exact List.mem_map.mpr ⟨r, hr, by simp [hne]⟩
  | ready =>
    simp only [outboundReady.call, outboundReady.trackedAt]
    rw [ready_replicas]
    exact ⟨r, hr, hkey, hn⟩
  | tick => exact absurd rfl htick

theorem tick_trackedAt (opts : Options) (o : outboundReady) (nodeId : Nat) (n : Int)
    (hwf : o.wf) (ht : o.trackedAt nodeId n) :
    (n + 1 < opts.NodeHeartbeatTimeoutTick → (o.tick opts).trackedAt nodeId (n + 1)) ∧
    (¬ n + 1 < opts.NodeHeartbeatTimeoutTick → nodeId ∉ replicaKeys (o.tick opts).replicas) := by
  obtain ⟨r, hr, hkey, hn⟩ := ht
  constructor
  · intro hlt
    refine ⟨{ r with heartbeatIdleTick := r.heartbeatIdleTick + 1,
                     forwardIdleTick := r.forwardIdleTick + 1 }, ?_, hkey, by simp [hn]⟩
    exact (mem_tickLoop opts o.replicas _).mpr ⟨r, hr, by omega, rfl⟩
  · intro hge hin
    obtain ⟨x, hx, hxk⟩ := List.mem_map.mp hin
    obtain ⟨r2, hr2, hlt, hx2⟩ := (mem_tickLoop opts o.replicas x).mp hx
    have hk2 : r2.nodeId = nodeId := by rw [← hxk, hx2]
    have : r2 = r := replica_eq_of_key hwf hr2 hr (hk2.trans hkey.symm)
    subst this
    omega

theorem run_untracked (opts : Options) (nodeId : Nat) (calls : List Call) :
    ∀ o : outboundReady, nodeId ∉ replicaKeys o.replicas →
      (∀ c ∈ calls, c ≠ Call.addNewReplica nodeId) →
      nodeId ∉ replicaKeys (o.run opts calls).replicas := by
  induction calls with
  | nil => intro o h _; exact h
  | cons c cs ih =>
    intro o h hc
    simp only [outboundReady.run, List.foldl_cons]
    exact ih _ (call_untracked opts o c nodeId h (hc c (List.mem_cons_self _ _)))
      (fun c2 h2 => hc c2 (List.mem_cons_of_mem _ h2))

theorem run_trackedAt (opts : Options) (nodeId : Nat) (calls : List Call) :
    ∀ (o : outboundReady) (n : Int), o.wf → o.trackedAt nodeId n →
      n < opts.NodeHeartbeatTimeoutTick →
      (∀ c ∈ calls, c ≠ Call.updateReplicaHeartbeat nodeId ∧ c ≠ Call.addNewReplica nodeId) →
      (n + (calls.count Call.tick : Int) < opts.NodeHeartbeatTimeoutTick →
        (o.run opts calls).trackedAt nodeId (n + (calls.count Call.tick : Int))) ∧
      (¬ n + (calls.count Call.tick : Int) < opts.NodeHeartbeatTimeoutTick →
        nodeId ∉ replicaKeys (o.run opts calls).replicas) := by
  induction calls with
  | nil =>
    intro o n _ ht hn _
    simp only [List.count_nil, Nat.cast_zero, add_zero, outboundReady.run, List.foldl_nil]
    exact ⟨fun _ => ht, fun h => absurd hn h⟩
  | cons c cs ih =>
    intro o n hwf ht hn hc
    have hc1 := hc c (List.mem_cons_self _ _)
    have hcs : ∀ c2 ∈ cs, c2 ≠ Call.updateReplicaHeartbeat nodeId ∧
        c2 ≠ Call.addNewReplica nodeId := fun c2 h2 => hc c2 (List.mem_cons_of_mem _ h2)
    have hrun : o.run opts (c :: cs) = (o.call opts c).run opts cs := by
      simp [outboundReady.run]
    rw [hrun]
    by_cases htick : c = Call.tick
    · subst htick
      have hcount : ((List.count Call.tick (Call.tick :: cs) : Nat) : Int) =
          1 + (List.count Call.tick cs : Int) := by
        rw [List.count_cons_self]; push_cast; ring
      rw [hcount]
      have hstep := tick_trackedAt opts o nodeId n hwf ht
      by_cases hlt : n + 1 < opts.NodeHeartbeatTimeoutTick
      · have ih2 := ih (o.call opts Call.tick) (n + 1) (call_wf opts o _ hwf) (hstep.1 hlt) hlt hcs
        rw [← add_assoc]
        exact ih2
      · constructor
        · intro h
          have : (0 : Int) ≤ (List.count Call.tick cs : Int) := Int.natCast_nonneg _
          omega
        · intro _
          exact run_untracked opts nodeId cs _ (hstep.2 hlt) (fun c2 h2 => (hcs c2 h2).2)
    · have hcount : List.count Call.tick (c :: cs) = List.count Call.tick cs := by
        rw [List.count_cons_of_ne (fun e => htick e.symm)]
      rw [hcount]
      exact ih (o.call opts c) n (call_wf opts o c hwf)
        (call_trackedAt opts o c nodeId n hwf ht htick hc1.1 hc1.2) hn hcs

/-- C8: on a well-formed replica map with heartbeat timeout T at least 1, take a replica
whose heartbeatIdleTick is 0 and any sequence of calls that contains neither
updateReplicaHeartbeat nor addNewReplica for its node.  The node is tracked after the
sequence exactly when the sequence contains fewer than T tick() calls.  Moreover every
replica tracked after a tick() is a replica tracked before it with both idle counters
increased by exactly one. -/
theorem c8_heartbeat_eviction (opts : Options) (o : outboundReady) (nodeId : Nat)
    (calls : List Call) (hT : 1 ≤ opts.NodeHeartbeatTimeoutTick) (hwf : o.wf)
    (htracked : o.trackedAt nodeId 0)
    (hcalls : ∀ c ∈ calls,
      c ≠ Call.updateReplicaHeartbeat nodeId ∧ c ≠ Call.addNewReplica nodeId) :
    (nodeId ∈ replicaKeys (o.run opts calls).replicas ↔
      (calls.count Call.tick : Int) < opts.NodeHeartbeatTimeoutTick) ∧
    (∀ o2 : outboundReady, ∀ x ∈ (o2.tick opts).replicas, ∃ r ∈ o2.replicas,
      x = { nodeId := r.nodeId,
            outboundForwardedIndex := r.outboundForwardedIndex,
            forwardIdleTick := r.forwardIdleTick + 1,
            heartbeatIdleTick := r.heartbeatIdleTick + 1 }) := by
  have h := run_trackedAt opts nodeId calls o 0 hwf htracked (by omega) hcalls
  simp only [zero_add] at h
  refine ⟨⟨?_, ?_⟩, ?_⟩
  · intro hin
    by_contra hlt
    exact h.2 hlt hin
  · intro hlt
    obtain ⟨r, hr, hk, _⟩ := h.1 hlt
    exact List.mem_map.mpr ⟨r, hr, hk⟩
  · intro o2 x hx
    obtain ⟨r, hr, _, hxe⟩ := (mem_tickLoop opts o2.replicas x).mp hx
    exact ⟨r, hr, hxe⟩

theorem checkCommitLoop_ge (rs : List replicaState) :
    ∀ c : Nat, c ≤ checkCommitLoop rs c := by
  induction rs with
  | nil => intro c; exact le_refl _
  | cons a t ih =>
    intro c
    unfold checkCommitLoop
    split
    · exact le_trans (by omega) (ih _)
    · exact ih c

theorem checkCommitLoop_le (rs : List replicaState) (B : Nat)
    (h : ∀ r ∈ rs, r.outboundForwardedIndex ≤ B) :
    ∀ c : Nat, c ≤ B → checkCommitLoop rs c ≤ B := by
  induction rs with
  | nil => intro c hc; exact hc
  | cons a t ih =>
    intro c hc
    have ht : ∀ r ∈ t, r.outboundForwardedIndex ≤ B := fun r hr => h r (List.mem_cons_of_mem _ hr)
    unfold checkCommitLoop
    split
    · exact ih ht _ (h a (List.mem_cons_self _ _))
    · exact ih ht c hc

theorem checkCommitLoop_mem (rs : List replicaState) :
    ∀ c : Nat, ∀ r ∈ rs, r.outboundForwardedIndex ≤ checkCommitLoop rs c := by
  induction rs with
  | nil => intro c r hr; cases hr
  | cons a t ih =>
    intro c r hr
    unfold checkCommitLoop
    rcases List.mem_cons.mp hr with h | h
    · subst h
      split
      · exact checkCommitLoop_ge t _
      · exact le_trans (by omega) (checkCommitLoop_ge t c)
    · split
      · exact ih _ r h
      · exact ih c r h

theorem checkCommit_full (o : outboundReady) (N : Nat)
    (hall : ∀ r ∈ o.replicas, r.outboundForwardedIndex ≤ N)
    (hex : ∃ r ∈ o.replicas, r.outboundForwardedIndex = N)
    (hc : o.commitIndex ≤ N) (hq : ∀ m ∈ o.queue.messages, m.Index ≤ N)
    (hqe : o.commitIndex = N → o.queue.messages = []) :
    o.checkCommit.commitIndex = N ∧ o.checkCommit.queue.messages = [] := by
  have hloop : checkCommitLoop o.replicas o.commitIndex = N := by
    obtain ⟨r, hr, hrN⟩ := hex
    have h1 := checkCommitLoop_mem o.replicas o.commitIndex r hr
    have h2 := checkCommitLoop_le o.replicas N hall o.commitIndex hc
    omega
  unfold outboundReady.checkCommit
  simp only [hloop]
  split
  · refine ⟨rfl, ?_⟩
    simp only [outboundReady.commit, msgQueue.truncateTo]
    rw [List.filter_eq_nil_iff]
    intro m hm
    have := hq m hm
    simp only [decide_eq_true_eq]
    omega
  · have hcN : o.commitIndex = N := by omega
    exact ⟨hcN, hqe hcN⟩

theorem updateReplicaIndex_tracked_commit (o : outboundReady) (k N : Nat)
    (replica : replicaState) (hinv : o.ackInv N)
    (hl : lookupReplica o.replicas k = some replica) :
    (o.updateReplicaIndex k N).commitIndex = N ∧
    (o.updateReplicaIndex k N).queue.messages = [] := by
  obtain ⟨_, hq, hall, hc, hqe, hex⟩ := hinv
  obtain ⟨hmem, hkey⟩ := lookupReplica_some hl
  unfold outboundReady.updateReplicaIndex
  rw [hl]
  simp only
  split
  · apply checkCommit_full
    · intro r hr
      simp only [modifyReplica] at hr
      obtain ⟨r0, hr0, rfl⟩ := List.mem_map.mp hr
      split
      · exact le_refl _
      · exact hall r0 hr0
    · refine ⟨{ replica with outboundForwardedIndex := N }, ?_, rfl⟩
      simp only [modifyReplica]
      exact List.mem_map.mpr ⟨replica, hmem, by simp [hkey]⟩
    · exact hc
    · exact hq
    · exact hqe
  · rename_i hle
    have hN : replica.outboundForwardedIndex = N := by
      have := hall replica hmem
      omega
    have hcN := hex ⟨replica, hmem, hN⟩
    exact ⟨hcN, hqe hcN⟩

theorem updateReplicaIndex_commitIndex_le (o : outboundReady) (k i : Nat) :
    o.commitIndex ≤ (o.updateReplicaIndex k i).commitIndex := by
  simp only [outboundReady.updateReplicaIndex]
  split
  · exact le_refl _
  · simp only
    split
    · exact checkCommit_commitIndex_le
        ({ o with replicas := modifyReplica o.replicas k
                    (fun r => { r with outboundForwardedIndex := i }) } : outboundReady)
    · exact le_refl _

theorem lookupReplica_of_key {rs : List replicaState} {k : Nat} (h : k ∈ replicaKeys rs) :
    ∃ r, lookupReplica rs k = some r := by
  cases hl : lookupReplica rs k with
  | some r => exact ⟨r, rfl⟩
  | none =>
    obtain ⟨r, hr, hk⟩ := List.mem_map.mp h
    exact absurd hk (lookupReplica_none hl r hr)

theorem updateReplicaIndex_ackInv (o : outboundReady) (k N : Nat) (hinv : o.ackInv N) :
    (o.updateReplicaIndex k N).ackInv N := by
  cases hl : lookupReplica o.replicas k with
  | none =>
    have : o.updateReplicaIndex k N = o := by simp [outboundReady.updateReplicaIndex, hl]
    rw [this]; exact hinv
  | some replica =>
    obtain ⟨hc, hq⟩ := updateReplicaIndex_tracked_commit o k N replica hinv hl
    have hrep := updateReplicaIndex_replicas o k N hinv.1
    refine ⟨?_, ?_, ?_, ?_, fun _ => hq, fun _ => hc⟩
    · unfold outboundReady.wf
      rw [updateReplicaIndex_keys]; exact hinv.1
    · rw [hq]; intro m hm; cases hm
    · rw [hrep]
      intro r hr
      obtain ⟨r0, hr0, rfl⟩ := List.mem_map.mp hr
      have := hinv.2.2.1 r0 hr0
      split
      · simp only; exact max_le this (le_refl _)
      · exact this
    · rw [hc]

theorem run_cons (opts : Options) (o : outboundReady) (c : Call) (cs : List Call) :
    o.run opts (c :: cs) = (o.call opts c).run opts cs := by
  simp [outboundReady.run]

theorem run_concat (opts : Options) (o : outboundReady) (xs ys : List Call) :
    o.run opts (xs ++ ys) = (o.run opts xs).run opts ys := by
  simp [outboundReady.run, List.foldl_append]

theorem run_acks (opts : Options) (N : Nat) (acks : List Nat) :
    ∀ o : outboundReady, o.ackInv N →
      (o.run opts (acks.map (fun k => Call.updateReplicaIndex k N))).ackInv N ∧
      o.commitIndex ≤
        (o.run opts (acks.map (fun k => Call.updateReplicaIndex k N))).commitIndex ∧
      ((∃ k ∈ acks, k ∈ replicaKeys o.replicas) →
        (o.run opts (acks.map (fun k => Call.updateReplicaIndex k N))).commitIndex = N) := by
  induction acks with
  | nil =>
    intro o hinv
    refine ⟨hinv, le_refl _, ?_⟩
    rintro ⟨k, hk, _⟩
    cases hk
  | cons a t ih =>
    intro o hinv
    rw [List.map_cons, run_cons]
    have hinv1 := updateReplicaIndex_ackInv o a N hinv
    have hmono := updateReplicaIndex_commitIndex_le o a N
    obtain ⟨h1, h2, h3⟩ := ih (o.updateReplicaIndex a N) hinv1
    simp only [outboundReady.call]
    refine ⟨h1, le_trans hmono h2, ?_⟩
    rintro ⟨k, hk, hkey⟩
    by_cases hka : a ∈ replicaKeys o.replicas
    · obtain ⟨r, hl⟩ := lookupReplica_of_key hka
      have hc := (updateReplicaIndex_tracked_commit o a N r hinv hl).1
      have hle := h1.2.2.2.1
      omega
    · rcases List.mem_cons.mp hk with h | h
      · exact absurd (h ▸ hkey) hka
      · apply h3
        refine ⟨k, h, ?_⟩
        rw [updateReplicaIndex_keys]; exact hkey

theorem run_adds (opts : Options) (nodes : List Nat) :
    ∀ o : outboundReady,
      (o.wf ∧ ∀ r ∈ o.replicas, r.outboundForwardedIndex = 0) → o.commitIndex = 0 →
      ((o.run opts (nodes.map Call.addNewReplica)).wf ∧
        ∀ r ∈ (o.run opts (nodes.map Call.addNewReplica)).replicas,
          r.outboundForwardedIndex = 0) ∧
      (o.run opts (nodes.map Call.addNewReplica)).commitIndex = 0 ∧
      (o.run opts (nodes.map Call.addNewReplica)).queue = o.queue ∧
      (∀ k ∈ replicaKeys o.replicas,
        k ∈ replicaKeys (o.run opts (nodes.map Call.addNewReplica)).replicas) ∧
      (∀ k ∈ nodes, k ∈ replicaKeys (o.run opts (nodes.map Call.addNewReplica)).replicas) := by
  induction nodes with
  | nil =>
    intro o h hc
    exact ⟨h, hc, rfl, fun k hk => hk, fun k hk => by cases hk⟩
  | cons a t ih =>
    intro o h hc
    rw [List.map_cons, run_cons]
    have hkeys : ∀ k, k ∈ replicaKeys o.replicas ∨ k = a →
        k ∈ replicaKeys (o.call opts (Call.addNewReplica a)).replicas := by
      intro k hk
      simp only [outboundReady.call, outboundReady.addNewReplica]
      rw [insertReplica_keys]
      simp only [newReplicaState]
      split
      · rcases hk with h1 | h1
        · exact h1
        · rw [h1]; assumption
      · rcases hk with h1 | h1
        · exact List.mem_append_left _ h1
        · rw [h1]; simp
    have h1 : (o.call opts (Call.addNewReplica a)).wf ∧
        ∀ r ∈ (o.call opts (Call.addNewReplica a)).replicas, r.outboundForwardedIndex = 0 := by
      refine ⟨call_wf opts o _ h.1, ?_⟩
      intro r hr
      simp only [outboundReady.call, outboundReady.addNewReplica] at hr
      rcases mem_insertReplica hr with h2 | h2
      · rw [h2]; simp [newReplicaState, hc]
      · exact h.2 r h2
    obtain ⟨g1, g2, g3, g4, g5⟩ := ih (o.call opts (Call.addNewReplica a)) h1 hc
    refine ⟨g1, g2, g3, fun k hk => g4 k (hkeys k (Or.inl hk)), ?_⟩
    intro k hk
    rcases List.mem_cons.mp hk with h2 | h2
    · exact g4 k (hkeys k (Or.inr h2))
    · exact g5 k h2

theorem run_appends (opts : Options) (msgs : List UserMessage) :
    ∀ o : outboundReady, (∀ m ∈ o.queue.messages, m.Index ≤ o.queue.lastIndex) →
      (o.run opts (msgs.map Call.append)).replicas = o.replicas ∧
      (o.run opts (msgs.map Call.append)).commitIndex = o.commitIndex ∧
      (o.run opts (msgs.map Call.append)).queue.lastIndex = o.queue.lastIndex + msgs.length ∧
      (∀ m ∈ (o.run opts (msgs.map Call.append)).queue.messages,
        m.Index ≤ (o.run opts (msgs.map Call.append)).queue.lastIndex) := by
  induction msgs with
  | nil =>
    intro o h
    exact ⟨rfl, rfl, rfl, h⟩
  | cons a t ih =>
    intro o h
    rw [List.map_cons, run_cons]
    have h1 : ∀ m ∈ (o.call opts (Call.append a)).queue.messages,
        m.Index ≤ (o.call opts (Call.append a)).queue.lastIndex := by
      intro m hm
      simp only [outboundReady.call, outboundReady.append, msgQueue.append,
        List.mem_append, List.mem_singleton] at hm ⊢
      rcases hm with h2 | h2
      · exact le_trans (h m h2) (Nat.le_succ _)
      · rw [h2]
    obtain ⟨g1, g2, g3, g4⟩ := ih (o.call opts (Call.append a)) h1
    refine ⟨g1, g2, ?_, g4⟩
    rw [g3]
    simp only [outboundReady.call, outboundReady.append, msgQueue.append, List.length_cons]
    omega

/-- C9: on a fresh queue, after addNewReplica for a non-empty list of nodes, N >= 1 append
calls and updateReplicaIndex(node, N) for (at least) every one of those nodes,
commitIndex equals N and the queue holds no entry. -/
theorem c9_full_ack_commit (opts : Options) (nodes acks : List Nat) (msgs : List UserMessage)
    (hN : 1 ≤ msgs.length) (hne : nodes ≠ []) (hcover : ∀ k ∈ nodes, k ∈ acks) :
    (newOutboundReady.run opts
      (nodes.map Call.addNewReplica ++ msgs.map Call.append ++
        acks.map (fun k => Call.updateReplicaIndex k msgs.length))).commitIndex = msgs.length ∧
    (newOutboundReady.run opts
      (nodes.map Call.addNewReplica ++ msgs.map Call.append ++
        acks.map (fun k => Call.updateReplicaIndex k msgs.length))).queue.len = 0 := by
  rw [run_concat, run_concat]
  obtain ⟨⟨a1, a2⟩, a3, a4, _, a6⟩ := run_adds opts nodes newOutboundReady
    ⟨by decide, by intro r hr; cases hr⟩ rfl
  have hq0 : ∀ m ∈ (newOutboundReady.run opts (nodes.map Call.addNewReplica)).queue.messages,
      m.Index ≤ (newOutboundReady.run opts (nodes.map Call.addNewReplica)).queue.lastIndex := by
    rw [a4]; intro m hm; cases hm
  obtain ⟨b1, b2, b3, b4⟩ := run_appends opts msgs _ hq0
  have hlast : ((newOutboundReady.run opts (nodes.map Call.addNewReplica)).run opts
      (msgs.map Call.append)).queue.lastIndex = msgs.length := by
    rw [b3, a4]; simp [newOutboundReady, newMsgQueue]
  have hinv : ((newOutboundReady.run opts (nodes.map Call.addNewReplica)).run opts
      (msgs.map Call.append)).ackInv msgs.length := by
    refine ⟨?_, ?_, ?_, ?_, ?_, ?_⟩
    · unfold outboundReady.wf; rw [b1]; exact a1
    · intro m hm; rw [← hlast]; exact b4 m hm
    · intro r hr; rw [b1] at hr; rw [a2 r hr]; exact Nat.zero_le _
    · rw [b2, a3]; exact Nat.zero_le _
    · intro h; rw [b2, a3] at h; omega
    · rintro ⟨r, hr, hrN⟩
      rw [b1] at hr; rw [a2 r hr] at hrN; omega
  obtain ⟨c1, _, c3⟩ := run_acks opts msgs.length acks _ hinv
  have hex : ∃ k ∈ acks, k ∈ replicaKeys ((newOutboundReady.run opts
      (nodes.map Call.addNewReplica)).run opts (msgs.map Call.append)).replicas := by
    obtain ⟨k, hk⟩ := List.exists_mem_of_ne_nil nodes hne
    exact ⟨k, hcover k hk, by rw [b1]; exact a6 k hk⟩
  have hc := c3 hex
  refine ⟨hc, ?_⟩
  unfold msgQueue.len
  rw [c1.2.2.2.2.1 hc]
  rfl

theorem truncateTo_wf (q : msgQueue) (i : Nat) (h : q.wf) : (q.truncateTo i).wf := by
  refine ⟨h.1.sublist (List.filter_sublist _), ?_⟩
  intro m hm
  exact h.2 m (List.mem_filter.mp hm).1

theorem append_wf (q : msgQueue) (m : UserMessage) (h : q.wf) : (q.append m).wf := by
  constructor
  · simp only [msgQueue.append]
    rw [List.pairwise_append]
    refine ⟨h.1, List.pairwise_singleton _ _, ?_⟩
    intro a ha b hb
    rw [List.mem_singleton] at hb
    rw [hb]
    exact Nat.lt_succ_of_le (h.2 a ha)
  · intro x hx
    simp only [msgQueue.append, List.mem_append, List.mem_singleton] at hx ⊢
    rcases hx with h1 | h1
    · exact le_trans (h.2 x h1) (Nat.le_succ _)
    · rw [h1]

theorem checkCommit_queue_wf (o : outboundReady) (h : o.queue.wf) : o.checkCommit.queue.wf := by
  unfold outboundReady.checkCommit
  simp only
  split
  · exact truncateTo_wf _ _ h
  · exact h

/-- Every call keeps the queue invariant: stored indices strictly increasing and bounded
by `lastIndex`. -/
theorem call_queue_wf (opts : Options) (o : outboundReady) (c : Call) (h : o.queue.wf) :
    (o.call opts c).queue.wf := by
  cases c with
  | append m => exact append_wf _ _ h
  | addNewReplica n => exact h
  | updateReplicaIndex n i =>
    simp only [outboundReady.call, outboundReady.updateReplicaIndex]
    split
    · exact h
    · simp only
      split
      · exact checkCommit_queue_wf
          ({ o with replicas := modifyReplica o.replicas n
                      (fun r => { r with outboundForwardedIndex := i }) } : outboundReady) h
      · exact h
  | updateReplicaHeartbeat n =>
    simp only [outboundReady.call, outboundReady.updateReplicaHeartbeat]
    split <;> exact h
  | ready =>
    simp only [outboundReady.call, outboundReady.ready]
    split
    · exact h
    · exact truncateTo_wf _ _ h
  | tick => exact h

/-- Every state reached from a fresh queue has a well-formed replica map and a
well-formed queue. -/
theorem run_fresh_wf (opts : Options) (calls : List Call) :
    (newOutboundReady.run opts calls).wf ∧ (newOutboundReady.run opts calls).queue.wf := by
  have key : ∀ (cs : List Call) (o : outboundReady), o.wf ∧ o.queue.wf →
      (o.run opts cs).wf ∧ (o.run opts cs).queue.wf := by
    intro cs
    induction cs with
    | nil => intro o h; exact h
    | cons c t ih =>
      intro o h
      rw [run_cons]
      exact ih _ ⟨call_wf opts o c h.1, call_queue_wf opts o c h.2⟩
  exact key calls newOutboundReady ⟨by decide, by decide⟩

theorem handleReadyMsg_syncing (r : cluster.ReactorSub) (now : Int) (acc : cluster.readyOutcome)
    (m : replica.Message)
    (hstatus : acc.handler.sync.syncStatus = cluster.syncStatus.syncStatusSyncing)
    (hremote : m.To ≠ r.opts.NodeId) (hto : m.To ≠ 0)
    (htype : m.MsgType = replica.MsgType.MsgSync)
    (hidx : m.Index ≤ acc.handler.sync.syncingLogIndex) :
    r.handleReadyMsg now acc m =
      if now - acc.handler.sync.startSyncTime > acc.handler.sync.syncTimeout then
        { acc with
          handler := { acc.handler with sync :=
            { acc.handler.sync with syncingLogIndex := m.Index, startSyncTime := now } },
          sent := acc.sent ++ [{ HandlerKey := acc.handler.key, Message := m }] }
      else acc := by
  have hnot : ¬ m.Index > acc.handler.sync.syncingLogIndex := not_lt.mpr hidx
  unfold cluster.ReactorSub.handleReadyMsg
  simp only [hremote, hto, htype, if_false, if_true, hstatus, hnot, false_or]

/-- C10: a handler is Syncing for index i since t0, and the ready batch holds one MsgSync
for a remote node with Index at most i.  When now - t0 is at most syncTimeout nothing is
sent and the sync record is unchanged; when now - t0 exceeds syncTimeout the message is
sent exactly once, startSyncTime becomes now and syncingLogIndex becomes the index of
the message. -/
theorem c10_sync_suppression (r : cluster.ReactorSub) (IsEmptyReady : replica.Ready → Bool)
    (IsEmptyHardState : replica.HardState → Bool) (now : Int) (h : cluster.handler)
    (hs : replica.HardState) (m : replica.Message)
    (hrd : IsEmptyReady { HardState := hs, Messages := [m] } = false)
    (hstatus : h.sync.syncStatus = cluster.syncStatus.syncStatusSyncing)
    (hremote : m.To ≠ r.opts.NodeId) (hto : m.To ≠ 0)
    (htype : m.MsgType = replica.MsgType.MsgSync)
    (hidx : m.Index ≤ h.sync.syncingLogIndex) :
    (r.handleReady IsEmptyReady IsEmptyHardState now h
        { HardState := hs, Messages := [m] }).sent =
      (if now - h.sync.startSyncTime > h.sync.syncTimeout
        then [{ HandlerKey := h.key, Message := m }] else []) ∧
    (r.handleReady IsEmptyReady IsEmptyHardState now h
        { HardState := hs, Messages := [m] }).handler.sync =
      (if now - h.sync.startSyncTime > h.sync.syncTimeout
        then { h.sync with syncingLogIndex := m.Index, startSyncTime := now }
        else h.sync) := by
  unfold cluster.ReactorSub.handleReady
  simp only [hrd, Bool.false_eq_true, if_false, List.foldl_cons, List.foldl_nil]
  cases hhs : IsEmptyHardState hs
  · simp only [Bool.not_false, if_true]
    rw [handleReadyMsg_syncing r now _ m hstatus hremote hto htype hidx]
    by_cases hexp : now - h.sync.startSyncTime > h.sync.syncTimeout
    · simp [hexp]
    · simp [hexp]
  · simp only [Bool.not_true, Bool.false_eq_true, if_false]
    rw [handleReadyMsg_syncing r now _ m hstatus hremote hto htype hidx]
    by_cases hexp : now - h.sync.startSyncTime > h.sync.syncTimeout
    · simp [hexp]
    · simp [hexp]

/-! ## Instances of the statements at concrete inputs -/

theorem c4_ready_dequeues_witness :
    sampleQueue.queue.wf ∧ ((sampleQueue.ready scenarioOptions).1.ready scenarioOptions).2 = [] :=
  ⟨by decide, (c4_ready_dequeues scenarioOptions sampleQueue (by decide)).1⟩

theorem c5_ready_routing_witness :
    sampleQueue.wf ∧ sampleQueue.unsent ≠ [] ∧
    ((sampleQueue.ready scenarioOptions).2.filter
      (fun a => decide (a.To = (newReplicaState 2 0).nodeId ∧
        ({ Index := 1, ToNode := 0, Size := 1, Payload := 7 } : UserMessage) ∈ a.Messages))).length
      = 1 :=
  ⟨by decide, by decide,
    (c5_ready_routing scenarioOptions sampleQueue (by decide) (by decide)).2.2.2.2
      (newReplicaState 2 0) (by decide) { Index := 1, ToNode := 0, Size := 1, Payload := 7 }
      (by decide) rfl⟩

theorem c6_has_true_only_with_work_witness :
    sampleQueueTicked.has scenarioOptions = true ∧ sampleQueueTicked.replicas ≠ [] :=
  ⟨by decide, (c6_has_true_only_with_work scenarioOptions sampleQueueTicked (by decide)).2⟩

theorem c7_updateReplicaIndex_effect_witness :
    sampleQueue.wf ∧
    (sampleQueue.updateReplicaIndex 1 2).replicas =
      [{ nodeId := 1, outboundForwardedIndex := 2, forwardIdleTick := 0, heartbeatIdleTick := 0 },
       { nodeId := 2, outboundForwardedIndex := 0, forwardIdleTick := 0, heartbeatIdleTick := 0 }] :=
  ⟨by decide, (c7_updateReplicaIndex_effect sampleQueue 1 2 (by decide)).1.trans (by decide)⟩

theorem c8_heartbeat_eviction_witness :
    1 ≤ scenarioOptions.NodeHeartbeatTimeoutTick ∧
    (newOutboundReady.run scenarioOptions scenario1Acks).wf ∧
    (newOutboundReady.run scenarioOptions scenario1Acks).trackedAt 3 0 ∧
    3 ∉ replicaKeys
      ((newOutboundReady.run scenarioOptions scenario1Acks).run scenarioOptions
        scenario1Evict).replicas :=
  ⟨by decide, by decide, by decide,
    fun hin => absurd
      ((c8_heartbeat_eviction scenarioOptions (newOutboundReady.run scenarioOptions scenario1Acks)
        3 scenario1Evict (by decide) (by decide) (by decide) (by decide)).1.mp hin)
      (by decide)⟩

theorem c9_full_ack_commit_witness :
    1 ≤ fiveMsgs.length ∧
    (newOutboundReady.run scenarioOptions
      ([1, 2, 3].map Call.addNewReplica ++ fiveMsgs.map Call.append ++
        [3, 1, 2].map (fun k => Call.updateReplicaIndex k fiveMsgs.length))).commitIndex
      = fiveMsgs.length ∧
    (newOutboundReady.run scenarioOptions
      ([1, 2, 3].map Call.addNewReplica ++ fiveMsgs.map Call.append ++
        [3, 1, 2].map (fun k => Call.updateReplicaIndex k fiveMsgs.length))).queue.len = 0 :=
  ⟨by decide,
    c9_full_ack_commit scenarioOptions [1, 2, 3] [3, 1, 2] fiveMsgs (by decide) (by decide)
      (by decide)⟩

theorem c10_sync_suppression_witness :
    noMessageReady { HardState := { LeaderId := 1, Term := 1 }, Messages := [syncMsg] } = false ∧
    syncMsg.Index ≤ syncingHandler.sync.syncingLogIndex ∧
    (sampleReactorSub.handleReady noMessageReady zeroHardState 120 syncingHandler
      { HardState := { LeaderId := 1, Term := 1 }, Messages := [syncMsg] }).sent = [] ∧
    (sampleReactorSub.handleReady noMessageReady zeroHardState 151 syncingHandler
      { HardState := { LeaderId := 1, Term := 1 }, Messages := [syncMsg] }).sent =
      [{ HandlerKey := "channel-1", Message := syncMsg }] :=
  ⟨by decide, by decide,
    (c10_sync_suppression sampleReactorSub noMessageReady zeroHardState 120 syncingHandler
      { LeaderId := 1, Term := 1 } syncMsg (by decide) rfl (by decide) (by decide) rfl
      (by decide)).1.trans (by decide),
    (c10_sync_suppression sampleReactorSub noMessageReady zeroHardState 151 syncingHandler
      { LeaderId := 1, Term := 1 } syncMsg (by decide) rfl (by decide) (by decide) rfl
      (by decide)).1.trans (by decide)⟩

/-! ## The local ready queue -/

theorem ready_truncate_inv (r : ready) (h : r.inv) : r.truncate.inv := by
  unfold ready.truncate
  split
  · exact h
  · refine ⟨h.2.1, h.2.1, ?_⟩
    intro m hm
    simp only [msgQueue.truncateTo] at hm
    obtain ⟨hm1, hm2⟩ := List.mem_filter.mp hm
    simp only [decide_eq_true_eq] at hm2
    exact ⟨Nat.lt_of_succ_le hm2, (h.2.2 m hm1).2⟩

theorem slice_getLast_bounds (q : msgQueue) (s e : Nat) (last : UserMessage)
    (h : (q.sliceWithSize s e 0).getLast? = some last) :
    last ∈ q.messages ∧ s ≤ last.Index ∧ last.Index < e := by
  have hm := List.mem_of_getLast?_eq_some h
  simp only [msgQueue.sliceWithSize, if_true] at hm
  obtain ⟨h1, h2⟩ := List.mem_filter.mp hm
  simp only [decide_eq_true_eq] at h2
  exact ⟨h1, h2.1, h2.2⟩

theorem ready_call_inv (r : ready) (c : readyCall) (h : r.inv) : (r.call c).inv := by
  cases c with
  | append m =>
    obtain ⟨h1, h2, h3⟩ := h
    refine ⟨Nat.le_succ_of_le h1, Nat.le_succ_of_le h2, ?_⟩
    intro x hx
    simp only [ready.call, ready.append, msgQueue.append, List.mem_append,
      List.mem_singleton] at hx ⊢
    rcases hx with hx | hx
    · exact ⟨(h3 x hx).1, Nat.le_succ_of_le (h3 x hx).2⟩
    · rw [hx]; exact ⟨Nat.lt_succ_of_le h1, le_refl _⟩
  | slice =>
    simp only [ready.call, ready.slice]
    split
    · rename_i last hl
      have hb := slice_getLast_bounds _ _ _ last hl
      exact ⟨h.1, (h.2.2 last hb.1).2, h.2.2⟩
    · exact ⟨h.1, Nat.zero_le _, h.2.2⟩
  | sliceWith s e => exact h
  | sliceAndTruncate =>
    simp only [ready.call, ready.sliceAndTruncate]
    apply ready_truncate_inv
    split
    · rename_i last hl
      have hb := slice_getLast_bounds _ _ _ last hl
      exact ⟨h.1, (h.2.2 last hb.1).2, h.2.2⟩
    · exact h
  | truncate => exact ready_truncate_inv r h

theorem ready_run_snoc (r : ready) (calls : List readyCall) (c : readyCall) :
    r.run (calls ++ [c]) = (r.run calls).call c := by
  simp [ready.run, List.foldl_append]

theorem ready_run_inv (calls : List readyCall) : (newReady.run calls).inv := by
  induction calls using List.reverseRecOn with
  | nil =>
    refine ⟨le_refl _, le_refl _, ?_⟩
    intro m hm
    cases hm
  | append_singleton cs c ih =>
    rw [ready_run_snoc]
    exact ready_call_inv _ c ih

theorem ready_truncate_offset (r : ready) (h : r.offsetIndex ≤ r.endIndex) :
    r.offsetIndex ≤ r.truncate.offsetIndex := by
  unfold ready.truncate
  split
  · exact le_refl _
  · exact h

theorem ready_sliceAndTruncate_offset (r : ready) (h : r.inv) :
    r.offsetIndex ≤ r.sliceAndTruncate.1.offsetIndex := by
  simp only [ready.sliceAndTruncate]
  cases hl : (r.queue.sliceWithSize (r.offsetIndex + 1) (r.queue.lastIndex + 1) 0).getLast? with
  | some last =>
    have hb := slice_getLast_bounds _ _ _ last hl
    simp only
    exact ready_truncate_offset
      ({ r with endIndex := last.Index } : ready) (by simp only; omega)
  | none =>
    have hnil := List.getLast?_eq_none_iff.mp hl
    have hq : r.queue.messages = [] := by
      simp only [msgQueue.sliceWithSize, if_true] at hnil
      rw [List.filter_eq_nil_iff] at hnil
      apply List.eq_nil_iff_forall_not_mem.mpr
      intro m hm
      have := h.2.2 m hm
      apply hnil m hm
      simp only [decide_eq_true_eq]
      omega
    simp only [ready.truncate, msgQueue.len, hq, List.length_nil, if_true]
    exact le_refl _

/-- C15, as the claim states it, fails: after append, slice, truncate, an empty slice and
another append, offsetIndex is 1, and the next truncate call lowers it to 0. -/
theorem c15_offsetIndex_regresses :
    (newReady.run staleTruncateCalls).offsetIndex = 1 ∧
    ((newReady.run staleTruncateCalls).call readyCall.truncate).offsetIndex = 0 ∧
    ¬ (newReady.run staleTruncateCalls).offsetIndex ≤
      ((newReady.run staleTruncateCalls).call readyCall.truncate).offsetIndex := by
  decide

/-- C15, amended: after every sequence of append, slice, sliceWith, sliceAndTruncate and
truncate calls on a fresh ready, offsetIndex is at most queue.lastIndex, and a further
call does not lower offsetIndex, provided that a truncate call is made with endIndex at
least offsetIndex. -/
theorem c15_offset_invariant (calls : List readyCall) (c : readyCall)
    (hc : c = readyCall.truncate →
      (newReady.run calls).offsetIndex ≤ (newReady.run calls).endIndex) :
    (newReady.run calls).offsetIndex ≤ (newReady.run calls).queue.lastIndex ∧
    ((newReady.run calls).call c).offsetIndex ≤ ((newReady.run calls).call c).queue.lastIndex ∧
    (newReady.run calls).offsetIndex ≤ ((newReady.run calls).call c).offsetIndex := by
  have hinv := ready_run_inv calls
  refine ⟨hinv.1, (ready_call_inv _ c hinv).1, ?_⟩
  cases c with
  | append m => exact le_refl _
  | slice =>
    simp only [ready.call, ready.slice]
    split <;> exact le_refl _
  | sliceWith s e => exact le_refl _
  | sliceAndTruncate => exact ready_sliceAndTruncate_offset _ hinv
  | truncate => exact ready_truncate_offset _ (hc rfl)

theorem c15_offset_invariant_witness :
    (newReady.run [readyCall.append broadcastMsg, readyCall.slice]).offsetIndex ≤
      (newReady.run [readyCall.append broadcastMsg, readyCall.slice]).endIndex ∧
    ((newReady.run [readyCall.append broadcastMsg, readyCall.slice]).call
      readyCall.truncate).offsetIndex = 1 ∧
    (newReady.run [readyCall.append broadcastMsg, readyCall.slice]).offsetIndex ≤
      ((newReady.run [readyCall.append broadcastMsg, readyCall.slice]).call
        readyCall.truncate).offsetIndex :=
  ⟨by decide, by decide,
    (c15_offset_invariant [readyCall.append broadcastMsg, readyCall.slice] readyCall.truncate
      (fun _ => by decide)).2.2⟩

/-! ## Order dependence of `has`, bounded acknowledgements, lost broadcasts -/

/-- C17: the two states below hold the same replicas and differ only in the visiting
order.  Replica 2 is past its cooldown with its acknowledged index in range, replica 1
is inside its cooldown; has() returns false when replica 1 is visited first and true
when replica 2 is visited first. -/
theorem c17_has_depends_on_order :
    cooldownLast.replicas = cooldownFirst.replicas.reverse ∧
    cooldownLast.queue = cooldownFirst.queue ∧
    cooldownLast.commitIndex = cooldownFirst.commitIndex ∧
    (∃ r ∈ cooldownFirst.replicas,
      scenarioOptions.OutboundForwardIntervalTick ≤ r.forwardIdleTick ∧
      cooldownFirst.commitIndex ≤ r.outboundForwardedIndex ∧
      r.outboundForwardedIndex < cooldownFirst.queue.lastIndex) ∧
    cooldownFirst.has scenarioOptions = false ∧
    cooldownLast.has scenarioOptions = true := by
  decide

theorem updateReplicaIndex_commitIndex_bound (o : outboundReady) (k i B : Nat)
    (hall : ∀ r ∈ o.replicas, r.outboundForwardedIndex ≤ B) (hi : i ≤ B)
    (hc : o.commitIndex ≤ B) : (o.updateReplicaIndex k i).commitIndex ≤ B := by
  simp only [outboundReady.updateReplicaIndex]
  split
  · exact hc
  · simp only
    split
    · simp only [outboundReady.checkCommit]
      have hloop : checkCommitLoop (modifyReplica o.replicas k
          (fun r => { r with outboundForwardedIndex := i })) o.commitIndex ≤ B := by
        apply checkCommitLoop_le _ _ _ _ hc
        intro r hr
        simp only [modifyReplica] at hr
        obtain ⟨r0, hr0, rfl⟩ := List.mem_map.mp hr
        split
        · exact hi
        · exact hall r0 hr0
      split
      · exact hloop
      · exact hc
    · exact hc

theorem call_bounded (opts : Options) (o : outboundReady) (c : Call) (hwf : o.wf)
    (hc : o.commitIndex ≤ o.queue.lastIndex)
    (hall : ∀ r ∈ o.replicas, r.outboundForwardedIndex ≤ o.queue.lastIndex)
    (hb : c.indexWithin o.queue.lastIndex = true) :
    (o.call opts c).commitIndex ≤ (o.call opts c).queue.lastIndex ∧
    ∀ r ∈ (o.call opts c).replicas,
      r.outboundForwardedIndex ≤ (o.call opts c).queue.lastIndex := by
  cases c with
  | append m =>
    simp only [outboundReady.call, outboundReady.append, msgQueue.append]
    exact ⟨Nat.le_succ_of_le hc, fun r hr => Nat.le_succ_of_le (hall r hr)⟩
  | addNewReplica n =>
    refine ⟨hc, ?_⟩
    intro r hr
    simp only [outboundReady.call, outboundReady.addNewReplica] at hr ⊢
    rcases mem_insertReplica hr with h | h
    · rw [h]; exact hc
    · exact hall r h
  | updateReplicaIndex n i =>
    simp only [Call.indexWithin, decide_eq_true_eq] at hb
    have hlast : (o.call opts (Call.updateReplicaIndex n i)).queue.lastIndex =
        o.queue.lastIndex := by
      simp only [outboundReady.call, outboundReady.updateReplicaIndex]
      split
      · rfl
      · simp only
        split
        · simp only [outboundReady.checkCommit]
          split <;> rfl
        · rfl
    rw [hlast]
    refine ⟨updateReplicaIndex_commitIndex_bound o n i _ hall hb hc, ?_⟩
    intro r hr
    simp only [outboundReady.call] at hr
    rw [updateReplicaIndex_replicas o n i hwf] at hr
    obtain ⟨r0, hr0, rfl⟩ := List.mem_map.mp hr
    split
    · exact max_le (hall r0 hr0) hb
    · exact hall r0 hr0
  | updateReplicaHeartbeat n =>
    simp only [outboundReady.call, outboundReady.updateReplicaHeartbeat]
    split
    · exact ⟨hc, hall⟩
    · refine ⟨hc, ?_⟩
      intro r hr
      simp only [modifyReplica] at hr
      obtain ⟨r0, hr0, rfl⟩ := List.mem_map.mp hr
      split <;> exact hall r0 hr0
  | ready =>
    simp only [outboundReady.call, outboundReady.ready]
    split
    · exact ⟨hc, hall⟩
    · exact ⟨hc, hall⟩
  | tick =>
    refine ⟨hc, ?_⟩
    intro r hr
    obtain ⟨r0, hr0, _, rfl⟩ := (mem_tickLoop opts o.replicas r).mp hr
    exact hall r0 hr0

theorem run_bounded (opts : Options) (calls : List Call) :
    ∀ o : outboundReady, o.wf → o.commitIndex ≤ o.queue.lastIndex →
      (∀ r ∈ o.replicas, r.outboundForwardedIndex ≤ o.queue.lastIndex) →
      o.indexArgsBounded opts calls →
      (o.run opts calls).commitIndex ≤ (o.run opts calls).queue.lastIndex ∧
      ∀ r ∈ (o.run opts calls).replicas,
        r.outboundForwardedIndex ≤ (o.run opts calls).queue.lastIndex := by
  induction calls with
  | nil => intro o _ hc hall _; exact ⟨hc, hall⟩
  | cons c cs ih =>
    intro o hwf hc hall hb
    rw [run_cons]
    obtain ⟨hb1, hb2⟩ := hb
    obtain ⟨h1, h2⟩ := call_bounded opts o c hwf hc hall hb1
    exact ih _ (call_wf opts o c hwf) h1 h2 hb2

/-- C18, as the claim states it, fails: an acknowledgement for index 7 on an empty log
sets the acknowledged index of replica 1 and commitIndex to 7 while lastIndex is 0. -/
theorem c18_commitIndex_ahead_of_log :
    (newOutboundReady.run scenarioOptions
      [Call.addNewReplica 1, Call.updateReplicaIndex 1 7]).commitIndex = 7 ∧
    (newOutboundReady.run scenarioOptions
      [Call.addNewReplica 1, Call.updateReplicaIndex 1 7]).queue.lastIndex = 0 ∧
    ¬ (newOutboundReady.run scenarioOptions
        [Call.addNewReplica 1, Call.updateReplicaIndex 1 7]).commitIndex ≤
      (newOutboundReady.run scenarioOptions
        [Call.addNewReplica 1, Call.updateReplicaIndex 1 7]).queue.lastIndex := by
  decide

/-- C18, amended: for every sequence of calls from a fresh queue in which every
updateReplicaIndex call passes an index that is at most queue.lastIndex at the time of
the call, commitIndex and every tracked replica's acknowledged index are at most
queue.lastIndex. -/
theorem c18_commitIndex_within_log (opts : Options) (calls : List Call)
    (hb : newOutboundReady.indexArgsBounded opts calls) :
    (newOutboundReady.run opts calls).commitIndex ≤
      (newOutboundReady.run opts calls).queue.lastIndex ∧
    ∀ r ∈ (newOutboundReady.run opts calls).replicas,
      r.outboundForwardedIndex ≤ (newOutboundReady.run opts calls).queue.lastIndex :=
  run_bounded opts calls newOutboundReady (by decide) (le_refl _)
    (by intro r hr; cases hr) hb

/-- C19, as the claim states it, fails: with no tracked replica, ready() removes the one
unsent broadcast message from the queue and returns no action. -/
theorem c19_broadcast_lost_without_replica :
    noReplicaQueue.unsent = [{ Index := 1, ToNode := 0, Size := 1, Payload := 7 }] ∧
    noReplicaQueue.replicas = [] ∧
    (noReplicaQueue.ready scenarioOptions).2 = [] ∧
    (noReplicaQueue.ready scenarioOptions).1.queue.messages = [] := by
  decide

/-- C19, amended: every unsent message that has a destination node, and every unsent
message when at least one replica is tracked, appears in the Messages of at least one
action returned by ready(). -/
theorem c19_ready_keeps_messages (opts : Options) (o : outboundReady) (m : UserMessage)
    (hm : m ∈ o.unsent) (h : m.ToNode ≠ 0 ∨ o.replicas ≠ []) :
    ∃ a ∈ (o.ready opts).2, m ∈ a.Messages := by
  have hne : o.unsent ≠ [] := List.ne_nil_of_mem hm
  rw [ready_actions_eq opts o hne]
  by_cases h0 : m.ToNode = 0
  · rcases h with h | h
    · exact absurd h0 h
    · obtain ⟨r, hr⟩ := List.exists_mem_of_ne_nil _ h
      refine ⟨replicaAction opts (o.unsent.filter (fun x => decide (x.ToNode = 0))) r, ?_, ?_⟩
      · exact List.mem_append_right _ (List.mem_map.mpr ⟨r, hr, rfl⟩)
      · exact List.mem_filter.mpr ⟨hm, by simpa using h0⟩
  · refine ⟨toNodeAction opts m, ?_, ?_⟩
    · apply List.mem_append_left
      exact List.mem_map.mpr ⟨m, List.mem_filter.mpr ⟨hm, by simpa using h0⟩, rfl⟩
    · simp [toNodeAction]

theorem c18_commitIndex_within_log_witness :
    newOutboundReady.indexArgsBounded scenarioOptions scenario1Acks ∧
    (newOutboundReady.run scenarioOptions scenario1Acks).commitIndex ≤
      (newOutboundReady.run scenarioOptions scenario1Acks).queue.lastIndex :=
  ⟨by decide, (c18_commitIndex_within_log scenarioOptions scenario1Acks (by decide)).1⟩

theorem c19_ready_keeps_messages_witness :
    ({ Index := 3, ToNode := 2, Size := 1, Payload := 8 } : UserMessage) ∈ sampleQueue.unsent ∧
    ∃ a ∈ (sampleQueue.ready scenarioOptions).2,
      ({ Index := 3, ToNode := 2, Size := 1, Payload := 8 } : UserMessage) ∈ a.Messages :=
  ⟨by decide,
    c19_ready_keeps_messages scenarioOptions sampleQueue
      { Index := 3, ToNode := 2, Size := 1, Payload := 8 } (by decide) (Or.inl (by decide))⟩

/-! ## The sub-reactor: proposals and events -/

theorem assignIndexLoop_eq {σ : Type} (key : String) (L T : Nat) (logs : List replica.Log) :
    ∀ (i : Nat) (acc : List replica.Log) (h : cluster.handlerState σ),
      cluster.assignIndexLoop key L T i logs (acc, h) =
        (acc ++ List.zipWith (fun j lg => { lg with Index := L + 1 + j, Term := T })
            (List.range' i logs.length) logs,
         { h with didProposes := h.didProposes ++
            List.zipWith (fun j lg => (key, lg.Id, L + 1 + j)) (List.range' i logs.length) logs }) := by
  induction logs with
  | nil => intro i acc h; simp [cluster.assignIndexLoop]
  | cons lg rest ih =>
    intro i acc h
    simp only [cluster.assignIndexLoop, ih, cluster.handlerState.didPropose, List.length_cons,
      List.range'_succ, List.zipWith_cons_cons, List.append_assoc, List.singleton_append]

theorem assignIndexLoop_zero {σ : Type} (key : String) (L T : Nat) (logs : List replica.Log)
    (h : cluster.handlerState σ) :
    cluster.assignIndexLoop key L T 0 logs ([], h) =
      (cluster.assignedLogs L T logs,
       { h with didProposes := h.didProposes ++ cluster.assignedBindings key L logs }) := by
  rw [assignIndexLoop_eq]
  simp [cluster.assignedLogs, cluster.assignedBindings, List.range_eq_range']

/-- One round of the loop of `handleProposes` when the substrate rejects the propose
message. -/
theorem handleProposesLoop_reject {σ : Type} (r : cluster.ReactorSub)
    (C : cluster.Collaborators σ) (req : cluster.proposeReq) (rest : List cluster.proposeReq)
    (h : cluster.handlerState σ) (cnt : Int) (ev : Bool) (e : String)
    (hn : req.logs.length ≠ 0)
    (hstep : C.step h.substrate (cluster.proposeMessage r C h req) = Except.error e) :
    r.handleProposesLoop C (req :: rest) h cnt ev =
      { handler := cluster.afterPropose r C h req rest, hasEvent := false, err := some e,
        panicked := false } := by
  unfold cluster.proposeMessage at hstep
  simp only [cluster.ReactorSub.handleProposesLoop, hn, if_false,
    cluster.handlerState.lastLogIndexAndTerm, assignIndexLoop_zero, cluster.handlerState.step,
    hstep, cluster.afterPropose, cluster.proposeMessage]

/-- One round of the loop of `handleProposes` when the substrate accepts the propose
message. -/
theorem handleProposesLoop_accept {σ : Type} (r : cluster.ReactorSub)
    (C : cluster.Collaborators σ) (req : cluster.proposeReq) (rest : List cluster.proposeReq)
    (h : cluster.handlerState σ) (cnt : Int) (ev : Bool) (s : σ)
    (hn : req.logs.length ≠ 0)
    (hstep : C.step h.substrate (cluster.proposeMessage r C h req) = Except.ok s) :
    r.handleProposesLoop C (req :: rest) h cnt ev =
      if r.opts.MaxProposeLogCount > 0 ∧
          cnt + (req.logs.length : Int) > r.opts.MaxProposeLogCount then
        { handler := { cluster.afterPropose r C h req rest with substrate := s },
          hasEvent := true, err := none, panicked := false }
      else
        r.handleProposesLoop C rest { cluster.afterPropose r C h req rest with substrate := s }
          (cnt + (req.logs.length : Int)) true := by
  unfold cluster.proposeMessage at hstep
  simp only [cluster.ReactorSub.handleProposesLoop, hn, if_false,
    cluster.handlerState.lastLogIndexAndTerm, assignIndexLoop_zero, cluster.handlerState.step,
    hstep, cluster.afterPropose, cluster.proposeMessage]

/-- One round of the loop of `handleProposes` on a request with logs, given what the
loop does with the requests behind it: the rounds from this request on are the request
itself on the handler's substrate, followed by rounds that each start from the
substrate returned by the accepted step of the round before. -/
theorem handleProposesLoop_round {σ : Type} (r : cluster.ReactorSub)
    (C : cluster.Collaborators σ) (req : cluster.proposeReq) (rest : List cluster.proposeReq)
    (hn : req.logs.length ≠ 0)
    (ih : ∀ (h : cluster.handlerState σ) (cnt : Int) (ev : Bool),
      ∃ rounds : List (cluster.proposeReq × σ),
        rounds.map Prod.fst <+: rest.filter (fun q => decide (q.logs.length ≠ 0)) ∧
        (∀ x ∈ rounds.head?, x.2 = h.substrate) ∧
        List.Chain' (fun a b => C.step a.2
          (C.NewProposeMessageWithLogs r.opts.NodeId (C.lastLogIndexAndTerm a.2).2
            (cluster.assignedLogs (C.lastLogIndexAndTerm a.2).1 (C.lastLogIndexAndTerm a.2).2
              a.1.logs)) = Except.ok b.2) rounds ∧
        (r.handleProposesLoop C rest h cnt ev).handler.stepLog = h.stepLog ++
          rounds.map (fun a => C.NewProposeMessageWithLogs r.opts.NodeId (C.lastLogIndexAndTerm a.2).2
            (cluster.assignedLogs (C.lastLogIndexAndTerm a.2).1 (C.lastLogIndexAndTerm a.2).2
              a.1.logs)) ∧
        (r.handleProposesLoop C rest h cnt ev).handler.didProposes = h.didProposes ++
          (rounds.map (fun a => cluster.assignedBindings a.1.key
            (C.lastLogIndexAndTerm a.2).1 a.1.logs)).flatten)
    (h : cluster.handlerState σ) (cnt : Int) (ev : Bool) :
    ∃ later : List (cluster.proposeReq × σ),
      ((req, h.substrate) :: later).map Prod.fst <+:
        (req :: rest).filter (fun q => decide (q.logs.length ≠ 0)) ∧
      List.Chain' (fun a b => C.step a.2
        (C.NewProposeMessageWithLogs r.opts.NodeId (C.lastLogIndexAndTerm a.2).2
            (cluster.assignedLogs (C.lastLogIndexAndTerm a.2).1 (C.lastLogIndexAndTerm a.2).2
              a.1.logs)) = Except.ok b.2)
        ((req, h.substrate) :: later) ∧
      (r.handleProposesLoop C (req :: rest) h cnt ev).handler.stepLog = h.stepLog ++
        ((req, h.substrate) :: later).map
          (fun a => C.NewProposeMessageWithLogs r.opts.NodeId (C.lastLogIndexAndTerm a.2).2
            (cluster.assignedLogs (C.lastLogIndexAndTerm a.2).1 (C.lastLogIndexAndTerm a.2).2
              a.1.logs)) ∧
      (r.handleProposesLoop C (req :: rest) h cnt ev).handler.didProposes = h.didProposes ++
        (((req, h.substrate) :: later).map (fun a => cluster.assignedBindings a.1.key
          (C.lastLogIndexAndTerm a.2).1 a.1.logs)).flatten := by
  have hf : (req :: rest).filter (fun q => decide (q.logs.length ≠ 0)) =
      req :: rest.filter (fun q => decide (q.logs.length ≠ 0)) :=
    List.filter_cons_of_pos (by simpa using hn)
  rw [hf]
  cases hstep : C.step h.substrate (cluster.proposeMessage r C h req) with
  | error e =>
    rw [handleProposesLoop_reject r C req rest h cnt ev e hn hstep]
    refine ⟨[], ?_, ?_, ?_, ?_⟩
    · simp
    · simp
    · simp [cluster.afterPropose, cluster.proposeMessage]
    · simp [cluster.afterPropose]
  | ok s =>
    rw [handleProposesLoop_accept r C req rest h cnt ev s hn hstep]
    split
    · refine ⟨[], ?_, ?_, ?_, ?_⟩
      · simp
      · simp
      · simp [cluster.afterPropose, cluster.proposeMessage]
      · simp [cluster.afterPropose]
    · obtain ⟨rounds, hp, hh, hc, hs, hd⟩ := ih
        { cluster.afterPropose r C h req rest with substrate := s }
        (cnt + (req.logs.length : Int)) true
      refine ⟨rounds, ?_, ?_, ?_, ?_⟩
      · simpa using hp
      · rw [List.chain'_cons']
        refine ⟨?_, ?_⟩
        · intro y hy
          have hys : y.2 = s := hh y hy
          rw [hys]
          simpa [cluster.proposeMessage] using hstep
        · exact hc
      · rw [hs]; simp [cluster.afterPropose, cluster.proposeMessage]
      · rw [hd]; simp [cluster.afterPropose]

/-- The rounds of the loop of `handleProposes` on any pending queue. -/
theorem handleProposesLoop_rounds {σ : Type} (r : cluster.ReactorSub)
    (C : cluster.Collaborators σ) (pending : List cluster.proposeReq) :
    ∀ (h : cluster.handlerState σ) (cnt : Int) (ev : Bool),
      ∃ rounds : List (cluster.proposeReq × σ),
        rounds.map Prod.fst <+: pending.filter (fun q => decide (q.logs.length ≠ 0)) ∧
        (∀ x ∈ rounds.head?, x.2 = h.substrate) ∧
        List.Chain' (fun a b => C.step a.2
          (C.NewProposeMessageWithLogs r.opts.NodeId (C.lastLogIndexAndTerm a.2).2
            (cluster.assignedLogs (C.lastLogIndexAndTerm a.2).1 (C.lastLogIndexAndTerm a.2).2
              a.1.logs)) = Except.ok b.2) rounds ∧
        (r.handleProposesLoop C pending h cnt ev).handler.stepLog = h.stepLog ++
          rounds.map (fun a => C.NewProposeMessageWithLogs r.opts.NodeId (C.lastLogIndexAndTerm a.2).2
            (cluster.assignedLogs (C.lastLogIndexAndTerm a.2).1 (C.lastLogIndexAndTerm a.2).2
              a.1.logs)) ∧
        (r.handleProposesLoop C pending h cnt ev).handler.didProposes = h.didProposes ++
          (rounds.map (fun a => cluster.assignedBindings a.1.key
            (C.lastLogIndexAndTerm a.2).1 a.1.logs)).flatten := by
  induction pending with
  | nil =>
    intro h cnt ev
    exact ⟨[], by simp [cluster.ReactorSub.handleProposesLoop]⟩
  | cons req rest ih =>
    intro h cnt ev
    by_cases hn : req.logs.length = 0
    · have hskip : r.handleProposesLoop C (req :: rest) h cnt ev =
          r.handleProposesLoop C rest { h with proposeQueue := rest } cnt ev := by
        simp [cluster.ReactorSub.handleProposesLoop, hn]
      have hf : (req :: rest).filter (fun q => decide (q.logs.length ≠ 0)) =
          rest.filter (fun q => decide (q.logs.length ≠ 0)) :=
        List.filter_cons_of_neg (by simpa using hn)
      rw [hskip, hf]
      obtain ⟨rounds, hp, hh, hc, hs, hd⟩ := ih { h with proposeQueue := rest } cnt ev
      exact ⟨rounds, hp, hh, hc, hs, hd⟩
    · obtain ⟨later, hp, hc, hs, hd⟩ := handleProposesLoop_round r C req rest hn
        (fun h1 cnt1 ev1 => ih h1 cnt1 ev1) h cnt ev
      exact ⟨(req, h.substrate) :: later, hp, by simp, hc, hs, hd⟩

theorem assignedLogs_getElem? (L T : Nat) (logs : List replica.Log) (i : Nat) :
    (cluster.assignedLogs L T logs)[i]? =
      (logs[i]?).map (fun lg => { lg with Index := L + 1 + i, Term := T }) := by
  unfold cluster.assignedLogs
  rw [List.getElem?_zipWith]
  by_cases hi : i < logs.length
  · simp [List.getElem?_range hi, List.getElem?_eq_getElem hi]
  · have h1 : logs[i]? = none := List.getElem?_eq_none (not_lt.mp hi)
    have h2 : (List.range logs.length)[i]? = none :=
      List.getElem?_eq_none (by simpa using not_lt.mp hi)
    simp [h1, h2]

theorem assignedBindings_getElem? (key : String) (L : Nat) (logs : List replica.Log) (i : Nat) :
    (cluster.assignedBindings key L logs)[i]? =
      (logs[i]?).map (fun lg => (key, lg.Id, L + 1 + i)) := by
  unfold cluster.assignedBindings
  rw [List.getElem?_zipWith]
  by_cases hi : i < logs.length
  · simp [List.getElem?_range hi, List.getElem?_eq_getElem hi]
  · have h1 : logs[i]? = none := List.getElem?_eq_none (not_lt.mp hi)
    have h2 : (List.range logs.length)[i]? = none :=
      List.getElem?_eq_none (by simpa using not_lt.mp hi)
    simp [h1, h2]

/-- C11: let req, with n >= 1 logs, be the request that the loop of handleProposes pops
from a handler h whose lastLogIndexAndTerm() is (L, T), whatever the running log count
and event flag.  This round passes to step exactly one message, the propose message
built from node id, T and the logs of req rewritten in input order, log number i (from
0) with Index L + 1 + i and Term T and with Id and Data unchanged, and it makes exactly
n didPropose calls, (key, Id of log i, L + 1 + i) in order.  If step rejects, the loop
ends there with the error; if step accepts and returns the substrate s, the loop either
stops on the log count or goes on with the requests behind req on the handler whose
substrate is s, so that the next popped request is assigned from lastLogIndexAndTerm()
of s.  Over the whole call, the requests processed are the first pending requests with
logs, each on the substrate returned by the accepted step of the one before it; the
messages passed to step are their propose messages and the didPropose calls are their
bindings, one per log, and nothing else. -/
theorem c11_index_assignment {σ : Type} (r : cluster.ReactorSub) (C : cluster.Collaborators σ)
    (h : cluster.handlerState σ) (req : cluster.proposeReq) (rest : List cluster.proposeReq)
    (cnt : Int) (ev : Bool) (L T : Nat)
    (hq : h.proposeQueue = req :: rest) (hn : 1 ≤ req.logs.length)
    (hlt : h.lastLogIndexAndTerm C = (L, T)) :
    (∀ e : String,
      C.step h.substrate (C.NewProposeMessageWithLogs r.opts.NodeId T
        (cluster.assignedLogs L T req.logs)) = Except.error e →
      r.handleProposesLoop C (req :: rest) h cnt ev =
        { handler :=
            { h with proposeQueue := rest,
                     didProposes := h.didProposes ++ cluster.assignedBindings req.key L req.logs,
                     stepLog := h.stepLog ++ [C.NewProposeMessageWithLogs r.opts.NodeId T
                       (cluster.assignedLogs L T req.logs)] },
          hasEvent := false, err := some e, panicked := false }) ∧
    (∀ s : σ,
      C.step h.substrate (C.NewProposeMessageWithLogs r.opts.NodeId T
        (cluster.assignedLogs L T req.logs)) = Except.ok s →
      r.handleProposesLoop C (req :: rest) h cnt ev =
        if r.opts.MaxProposeLogCount > 0 ∧
            cnt + (req.logs.length : Int) > r.opts.MaxProposeLogCount then
          { handler :=
              { h with substrate := s, proposeQueue := rest,
                       didProposes := h.didProposes ++
                         cluster.assignedBindings req.key L req.logs,
                       stepLog := h.stepLog ++ [C.NewProposeMessageWithLogs r.opts.NodeId T
                         (cluster.assignedLogs L T req.logs)] },
            hasEvent := true, err := none, panicked := false }
        else
          r.handleProposesLoop C rest
            { h with substrate := s, proposeQueue := rest,
                     didProposes := h.didProposes ++
                       cluster.assignedBindings req.key L req.logs,
                     stepLog := h.stepLog ++ [C.NewProposeMessageWithLogs r.opts.NodeId T
                       (cluster.assignedLogs L T req.logs)] }
            (cnt + (req.logs.length : Int)) true) ∧
    r.handleProposes C h = r.handleProposesLoop C (req :: rest) h 0 false ∧
    (∃ later : List (cluster.proposeReq × σ),
      ((req, h.substrate) :: later).map Prod.fst <+:
        h.proposeQueue.filter (fun q => decide (q.logs.length ≠ 0)) ∧
      List.Chain' (fun a b => C.step a.2
        (C.NewProposeMessageWithLogs r.opts.NodeId (C.lastLogIndexAndTerm a.2).2
          (cluster.assignedLogs (C.lastLogIndexAndTerm a.2).1 (C.lastLogIndexAndTerm a.2).2
            a.1.logs)) = Except.ok b.2) ((req, h.substrate) :: later) ∧
      (r.handleProposes C h).handler.stepLog =
        h.stepLog ++ C.NewProposeMessageWithLogs r.opts.NodeId T
          (cluster.assignedLogs L T req.logs) ::
          later.map (fun a =>
            C.NewProposeMessageWithLogs r.opts.NodeId (C.lastLogIndexAndTerm a.2).2
              (cluster.assignedLogs (C.lastLogIndexAndTerm a.2).1
                (C.lastLogIndexAndTerm a.2).2 a.1.logs)) ∧
      (r.handleProposes C h).handler.didProposes =
        h.didProposes ++ (cluster.assignedBindings req.key L req.logs ++
          (later.map (fun a => cluster.assignedBindings a.1.key
            (C.lastLogIndexAndTerm a.2).1 a.1.logs)).flatten)) ∧
    (cluster.assignedLogs L T req.logs).length = req.logs.length ∧
    (cluster.assignedBindings req.key L req.logs).length = req.logs.length ∧
    (∀ i : Nat, (cluster.assignedLogs L T req.logs)[i]? =
      (req.logs[i]?).map (fun lg =>
        { Id := lg.Id, Index := L + 1 + i, Term := T, Data := lg.Data })) ∧
    (∀ i : Nat, (cluster.assignedBindings req.key L req.logs)[i]? =
      (req.logs[i]?).map (fun lg => (req.key, lg.Id, L + 1 + i))) := by
  have hn0 : req.logs.length ≠ 0 := by omega
  have hL : (C.lastLogIndexAndTerm h.substrate).1 = L := by
    simp only [cluster.handlerState.lastLogIndexAndTerm] at hlt; rw [hlt]
  have hT : (C.lastLogIndexAndTerm h.substrate).2 = T := by
    simp only [cluster.handlerState.lastLogIndexAndTerm] at hlt; rw [hlt]
  have hmsg : cluster.proposeMessage r C h req =
      C.NewProposeMessageWithLogs r.opts.NodeId T (cluster.assignedLogs L T req.logs) := by
    simp only [cluster.proposeMessage, hL, hT]
  refine ⟨?_, ?_, ?_, ?_, ?_, ?_, ?_, ?_⟩
  · intro e hstep
    rw [← hmsg] at hstep
    rw [handleProposesLoop_reject r C req rest h cnt ev e hn0 hstep]
    simp only [cluster.afterPropose, hmsg, hL]
  · intro s hstep
    rw [← hmsg] at hstep
    rw [handleProposesLoop_accept r C req rest h cnt ev s hn0 hstep]
    simp only [cluster.afterPropose, hmsg, hL]
  · unfold cluster.ReactorSub.handleProposes
    rw [hq]
  · obtain ⟨later, hp, hc, hs, hd⟩ := handleProposesLoop_round r C req rest hn0
      (handleProposesLoop_rounds r C rest) h 0 false
    refine ⟨later, ?_, hc, ?_, ?_⟩
    · rw [hq]; exact hp
    · unfold cluster.ReactorSub.handleProposes
      rw [hq, hs]
      simp only [List.map_cons, hL, hT]
    · unfold cluster.ReactorSub.handleProposes
      rw [hq, hd]
      simp only [List.map_cons, List.flatten_cons, hL]
  · simp [cluster.assignedLogs]
  · simp [cluster.assignedBindings]
  · intro i
    exact assignedLogs_getElem? L T req.logs i
  · intro i
    exact assignedBindings_getElem? req.key L req.logs i

theorem c11_index_assignment_witness :
    twoRequestHandler.proposeQueue =
      [cluster.newProposeReq "13" threeLogs, cluster.newProposeReq "46" threeMoreLogs] ∧
    twoRequestHandler.lastLogIndexAndTerm sampleCollaborators = (0, 1) ∧
    (sampleReactorSub.handleProposes sampleCollaborators twoRequestHandler).handler.didProposes
      = [("13", 11, 1), ("13", 12, 2), ("13", 13, 3), ("46", 14, 4), ("46", 15, 5),
         ("46", 16, 6)] ∧
    (sampleReactorSub.handleProposes sampleCollaborators twoRequestHandler).handler.stepLog.map
      (fun m => m.Logs.map (fun lg => (lg.Id, lg.Index, lg.Term, lg.Data)))
      = [[(11, 1, 1, 101), (12, 2, 1, 102), (13, 3, 1, 103)],
         [(14, 4, 1, 104), (15, 5, 1, 105), (16, 6, 1, 106)]] ∧
    (sampleReactorSub.handleProposes sampleCollaborators proposingHandler).handler.didProposes
      = [("13", 11, 1), ("13", 12, 2), ("13", 13, 3)] ∧
    sampleReactorSub.handleProposesLoop sampleCollaborators
        [cluster.newProposeReq "13" threeLogs, cluster.newProposeReq "46" threeMoreLogs]
        twoRequestHandler 0 false =
      sampleReactorSub.handleProposesLoop sampleCollaborators
        [cluster.newProposeReq "46" threeMoreLogs]
        { twoRequestHandler with
          substrate := (3, 1),
          proposeQueue := [cluster.newProposeReq "46" threeMoreLogs],
          didProposes := [("13", 11, 1), ("13", 12, 2), ("13", 13, 3)],
          stepLog := [sampleMessage replica.MsgType.MsgOther 1 0 1 0
            [{ Id := 11, Index := 1, Term := 1, Data := 101 },
             { Id := 12, Index := 2, Term := 1, Data := 102 },
             { Id := 13, Index := 3, Term := 1, Data := 103 }]] }
        3 true :=
  ⟨rfl, by decide, by decide, by decide, by decide,
    ((c11_index_assignment sampleReactorSub sampleCollaborators twoRequestHandler
      (cluster.newProposeReq "13" threeLogs) [cluster.newProposeReq "46" threeMoreLogs]
      0 false 0 1 rfl (by decide) (by decide)).2.1 (3, 1) rfl).trans (if_neg (by decide))⟩

theorem handleProposes_reject {σ : Type} (r : cluster.ReactorSub) (C : cluster.Collaborators σ)
    (h : cluster.handlerState σ) (req : cluster.proposeReq) (rest : List cluster.proposeReq)
    (e : String) (hq : h.proposeQueue = req :: rest) (hn : req.logs.length ≠ 0)
    (hrej : C.step h.substrate (cluster.proposeMessage r C h req) = Except.error e) :
    r.handleProposes C h =
      { handler := cluster.afterPropose r C h req rest, hasEvent := false, err := some e,
        panicked := false } := by
  unfold cluster.ReactorSub.handleProposes
  rw [hq]
  exact handleProposesLoop_reject r C req rest h 0 false e hn hrej

theorem handleEvent_of_propose_err {σ : Type} (r : cluster.ReactorSub)
    (C : cluster.Collaborators σ) (h : cluster.handlerState σ) (e : String)
    (herr : (r.handleProposes C h).err = some e) :
    (r.handleEvent C h).handler = (r.handleProposes C h).handler ∧
    (r.handleEvent C h).hasEvent = false ∧ (r.handleEvent C h).err = some e := by
  simp [cluster.ReactorSub.handleEvent, cluster.eventOutcome.andThen, herr]

/-- C12, as the claim states it, fails: when the substrate rejects the propose message,
the request is gone from the pending queue, its three didPropose bindings are recorded,
and handleEvent returns the error without stepping the pending received message. -/
theorem c12_rejected_request_is_dropped :
    busyHandler.proposeQueue = [cluster.newProposeReq "13" threeLogs] ∧
    busyHandler.didProposes = [] ∧
    (sampleReactorSub.handleProposes rejectingCollaborators busyHandler).err
      = some "rejected" ∧
    (sampleReactorSub.handleProposes rejectingCollaborators busyHandler).handler.proposeQueue
      = [] ∧
    (sampleReactorSub.handleProposes rejectingCollaborators busyHandler).handler.didProposes
      = [("13", 11, 1), ("13", 12, 2), ("13", 13, 3)] ∧
    (sampleReactorSub.handleEvent rejectingCollaborators busyHandler).err = some "rejected" ∧
    (sampleReactorSub.handleEvent rejectingCollaborators busyHandler).handler.messages
      = [receivedMsg] ∧
    (sampleReactorSub.handleEvent rejectingCollaborators busyHandler).handler.stepLog.length
      = 1 := by
  decide

/-- C12, amended: when handler.step rejects the propose message built for the oldest
pending request, handleProposes returns (false, err); that request has been popped, the
requests behind it are still pending, and its didPropose bindings have been recorded;
handleEvent returns (false, err) at once, so the received messages, the buffered sync
response and the task lists are as before the call. -/
theorem c12_rejected_propose {σ : Type} (r : cluster.ReactorSub) (C : cluster.Collaborators σ)
    (h : cluster.handlerState σ) (req : cluster.proposeReq) (rest : List cluster.proposeReq)
    (e : String) (hq : h.proposeQueue = req :: rest) (hn : 1 ≤ req.logs.length)
    (hrej : C.step h.substrate (cluster.proposeMessage r C h req) = Except.error e) :
    (r.handleProposes C h).err = some e ∧
    (r.handleProposes C h).hasEvent = false ∧
    (r.handleProposes C h).handler.proposeQueue = rest ∧
    (r.handleProposes C h).handler.didProposes =
      h.didProposes ++
        cluster.assignedBindings req.key (C.lastLogIndexAndTerm h.substrate).1 req.logs ∧
    (r.handleEvent C h).err = some e ∧
    (r.handleEvent C h).hasEvent = false ∧
    (r.handleEvent C h).handler.proposeQueue = rest ∧
    (r.handleEvent C h).handler.messages = h.messages ∧
    (r.handleEvent C h).handler.msgSyncResp = h.msgSyncResp ∧
    (r.handleEvent C h).handler.appendLogStoreTasks = h.appendLogStoreTasks ∧
    (r.handleEvent C h).handler.getLogsTasks = h.getLogsTasks ∧
    (r.handleEvent C h).handler.applyLogStoreTasks = h.applyLogStoreTasks ∧
    (r.handleEvent C h).handler.stepLog = h.stepLog ++ [cluster.proposeMessage r C h req] := by
  have hn0 : req.logs.length ≠ 0 := by omega
  have hp := handleProposes_reject r C h req rest e hq hn0 hrej
  have herr : (r.handleProposes C h).err = some e := by rw [hp]
  obtain ⟨e1, e2, e3⟩ := handleEvent_of_propose_err r C h e herr
  rw [e1, e2, e3, hp]
  simp [cluster.afterPropose]

theorem c12_rejected_propose_witness :
    rejectingCollaborators.step busyHandler.substrate
      (cluster.proposeMessage sampleReactorSub rejectingCollaborators busyHandler
        (cluster.newProposeReq "13" threeLogs)) = Except.error "rejected" ∧
    (sampleReactorSub.handleProposes rejectingCollaborators busyHandler).err
      = some "rejected" :=
  ⟨rfl,
    (c12_rejected_propose sampleReactorSub rejectingCollaborators busyHandler
      (cluster.newProposeReq "13" threeLogs) [] "rejected" rfl (by decide) rfl).1⟩

/-- C14: the only pending work is one received message that is not a sync response; the
substrate accepts it.  handleEvent steps the message and drains the queue, and returns
hasEvent = false with no error, because handleRecvMessages returns false. -/
theorem c14_received_message_is_no_event :
    receivingHandler.messages = [receivedMsg] ∧
    (sampleReactorSub.handleEvent sampleCollaborators receivingHandler).handler.stepLog
      = [receivedMsg.Message] ∧
    (sampleReactorSub.handleEvent sampleCollaborators receivingHandler).handler.messages = [] ∧
    (sampleReactorSub.handleEvent sampleCollaborators receivingHandler).err = none ∧
    (sampleReactorSub.handleEvent sampleCollaborators receivingHandler).panicked = false ∧
    (sampleReactorSub.handleEvent sampleCollaborators receivingHandler).hasEvent = false := by
  decide

/-- C13: for a MsgSyncGet with Index > 0, handleSyncGet adds one get-logs task keyed by
(msg.From, msg.Index); running its executor marks the task finished with the response
NewMsgSyncGetResp(local node, msg.From, msg.Index, logs returned by getAndMergeLogs),
returns no error, and raises advance exactly when those logs are not empty.  For
Index = 0 the handler is unchanged. -/
theorem c13_sync_get_task {σ : Type} (r : cluster.ReactorSub) (C : cluster.Collaborators σ)
    (h : cluster.handlerState σ) (msg : replica.Message) (hidx : 0 < msg.Index) :
    (r.handleSyncGet h msg).getLogsTasks =
      h.getLogsTasks ++
        [{ requester := msg.From, index := msg.Index, exec := cluster.taskExec.syncGet msg,
           finished := false, err := none, resp := cluster.zeroMessage }] ∧
    (r.runExec C { requester := msg.From, index := msg.Index,
                   exec := cluster.taskExec.syncGet msg, finished := false, err := none,
                   resp := cluster.zeroMessage }).1 =
      { requester := msg.From, index := msg.Index, exec := cluster.taskExec.syncGet msg,
        finished := true, err := none,
        resp := C.NewMsgSyncGetResp r.opts.NodeId msg.From msg.Index (C.getAndMergeLogs msg).1 } ∧
    ((r.runExec C { requester := msg.From, index := msg.Index,
                    exec := cluster.taskExec.syncGet msg, finished := false, err := none,
                    resp := cluster.zeroMessage }).2.1 = true ↔
      (C.getAndMergeLogs msg).1 ≠ []) ∧
    (r.runExec C { requester := msg.From, index := msg.Index,
                   exec := cluster.taskExec.syncGet msg, finished := false, err := none,
                   resp := cluster.zeroMessage }).2.2 = none ∧
    (∀ msg0 : replica.Message, msg0.Index = 0 → r.handleSyncGet h msg0 = h) := by
  refine ⟨?_, ?_, ?_, ?_, ?_⟩
  · have hne : ¬ msg.Index ≤ 0 := by omega
    simp [cluster.ReactorSub.handleSyncGet, hne, cluster.handlerState.addGetLogsTask,
      cluster.newGetLogsTask]
  · simp [cluster.ReactorSub.runExec]
  · simp [cluster.ReactorSub.runExec, List.length_pos]
  · simp [cluster.ReactorSub.runExec]
  · intro msg0 h0
    simp [cluster.ReactorSub.handleSyncGet, h0]

theorem c13_sync_get_task_witness :
    0 < syncGetMsg.Index ∧
    (sampleReactorSub.handleSyncGet emptyHandler syncGetMsg).getLogsTasks.length = 1 ∧
    (sampleReactorSub.runExec sampleCollaborators
      { requester := 2, index := 10, exec := cluster.taskExec.syncGet syncGetMsg,
        finished := false, err := none, resp := cluster.zeroMessage }).1.resp.Logs = [] ∧
    ¬ (sampleReactorSub.runExec sampleCollaborators
      { requester := syncGetMsg.From, index := syncGetMsg.Index,
        exec := cluster.taskExec.syncGet syncGetMsg, finished := false, err := none,
        resp := cluster.zeroMessage }).2.1 = true :=
  ⟨by decide, by decide, by decide,
    fun hadv => absurd
      ((c13_sync_get_task sampleReactorSub sampleCollaborators emptyHandler syncGetMsg
        (by decide)).2.2.1.mp hadv)
      (by decide)⟩

/-- C20: on a registry that holds a handler for the key, propose and proposeAndWait with
an empty list of logs end in the run-time panic of `ids[len(ids)-1]`; with a non-empty
list the request is enqueued, and without a handler nothing is enqueued. -/
theorem c20_propose_panics_on_empty_logs :
    (sampleReactorSub.propose [emptyHandler] "channel-1" []).isPanic = true ∧
    (sampleReactorSub.proposeAndWait [emptyHandler] "channel-1" []).isPanic = true ∧
    (sampleReactorSub.propose [emptyHandler] "channel-1" threeLogs).isPanic = false ∧
    (sampleReactorSub.propose [emptyHandler] "channel-2" []).isPanic = false := by
  decide

/-! ## The message queue of the cluster server -/

theorem take_succ_set {α : Type} (l : List α) :
    ∀ (k : Nat) (a : α), k < l.length → (l.set k a).take (k + 1) = l.take k ++ [a] := by
  induction l with
  | nil => intro k a hk; cases hk
  | cons x xs ih =>
    intro k a hk
    cases k with
    | zero => simp
    | succ j =>
      simp only [List.set_cons_succ, List.take_succ_cons, List.cons_append]
      rw [ih j a (by simpa using hk)]

theorem addAll_fill (msgs : List clusterserver.Message) :
    ∀ (q : clusterserver.messageQueue), q.stopped = false → q.rl.maxSize = 0 →
      q.idx + msgs.length ≤ q.size → q.size ≤ q.targetQueue.length →
      (q.addAll msgs).2 = List.replicate msgs.length (true, false) ∧
      (q.addAll msgs).1.idx = q.idx + msgs.length ∧
      (q.addAll msgs).1.size = q.size ∧
      (q.addAll msgs).1.stopped = false ∧
      (q.addAll msgs).1.rl = q.rl ∧
      (q.addAll msgs).1.leftInWrite = q.leftInWrite ∧
      (q.addAll msgs).1.targetQueue.length = q.targetQueue.length ∧
      (q.addAll msgs).1.targetQueue.take (q.addAll msgs).1.idx =
        q.targetQueue.take q.idx ++ msgs.map some := by
  induction msgs with
  | nil =>
    intro q hs _ _ _
    simp [clusterserver.messageQueue.addAll, hs]
  | cons m ms ih =>
    intro q hs hrl hlen hbuf
    simp only [List.length_cons] at hlen
    have hlt : ¬ q.idx ≥ q.size := by omega
    have hen : q.rl.Enabled = false := by simp [clusterserver.rateLimiter.Enabled, hrl]
    have hadd2 : (q.add m).2 = (true, false) := by
      simp [clusterserver.messageQueue.add, hlt, hs, hen]
    have hidx : (q.add m).1.idx = q.idx + 1 := by
      simp only [clusterserver.messageQueue.add, hlt, hs, hen, if_false, Bool.false_and,
        Bool.false_eq_true]
    have hsize : (q.add m).1.size = q.size := by
      simp only [clusterserver.messageQueue.add, hlt, hs, hen, if_false, Bool.false_and,
        Bool.false_eq_true]
      split <;> rfl
    have hstop : (q.add m).1.stopped = false := by
      simp only [clusterserver.messageQueue.add, hlt, hs, hen, if_false, Bool.false_and,
        Bool.false_eq_true]
      split <;> rfl
    have hrl1 : (q.add m).1.rl = q.rl := by
      simp only [clusterserver.messageQueue.add, hlt, hs, hen, if_false, Bool.false_and,
        Bool.false_eq_true]
    have hlw : (q.add m).1.leftInWrite = q.leftInWrite := by
      simp only [clusterserver.messageQueue.add, hlt, hs, hen, if_false, Bool.false_and,
        Bool.false_eq_true]
      split <;> rfl
    have htq : (q.add m).1.targetQueue = q.targetQueue.set q.idx (some m) := by
      simp only [clusterserver.messageQueue.add, hlt, hs, hen, if_false, Bool.false_and,
        Bool.false_eq_true, clusterserver.messageQueue.targetQueue]
      cases hw : q.leftInWrite <;> simp
    have hrl2 : (q.add m).1.rl.maxSize = 0 := by rw [hrl1]; exact hrl
    have hlen2 : (q.add m).1.idx + ms.length ≤ (q.add m).1.size := by
      rw [hidx, hsize]; omega
    have hbuf2 : (q.add m).1.size ≤ (q.add m).1.targetQueue.length := by
      rw [hsize, htq, List.length_set]; exact hbuf
    obtain ⟨g1, g2, g3, g4, g5, g6, g7, g8⟩ := ih (q.add m).1 hstop hrl2 hlen2 hbuf2
    simp only [clusterserver.messageQueue.addAll, List.length_cons]
    refine ⟨?_, ?_, ?_, g4, ?_, ?_, ?_, ?_⟩
    · rw [g1, hadd2]; rfl
    · rw [g2, hidx]; omega
    · rw [g3, hsize]
    · rw [g5, hrl1]
    · rw [g6, hlw]
    · rw [g7, htq, List.length_set]
    · rw [g8, hidx, htq]
      have hlt2 : q.idx < q.targetQueue.length := by omega
      rw [take_succ_set _ _ _ hlt2]
      simp

theorem addAll_full (extra : List clusterserver.Message) (q : clusterserver.messageQueue)
    (hs : q.stopped = false) (hfull : q.idx ≥ q.size) :
    q.addAll extra = (q, List.replicate extra.length (false, false)) := by
  induction extra with
  | nil => rfl
  | cons m ms ih =>
    have hadd : q.add m = (q, false, false) := by
      simp [clusterserver.messageQueue.add, hfull, hs]
    simp only [clusterserver.messageQueue.addAll, hadd, ih, List.length_cons,
      List.replicate_succ]

/-- C16: for a capacity n >= 1, newMessageQueue(n, false, 0, 0) has two buffers of length
n; n add calls all return (true, false); every further add before a get returns
(false, false) and leaves idx = n; get() hands out the n messages in order, sets idx to
0 and flips leftInWrite; the next add returns (true, false). -/
theorem c16_message_queue (n : Nat) (hn : 1 ≤ n) (msgs extra : List clusterserver.Message)
    (m : clusterserver.Message) (hlen : msgs.length = n) :
    (clusterserver.newMessageQueue n false 0 0).left.length = n ∧
    (clusterserver.newMessageQueue n false 0 0).right.length = n ∧
    ((clusterserver.newMessageQueue n false 0 0).addAll msgs).2 =
      List.replicate n (true, false) ∧
    ((clusterserver.newMessageQueue n false 0 0).addAll (msgs ++ extra)).2 =
      List.replicate n (true, false) ++ List.replicate extra.length (false, false) ∧
    ((clusterserver.newMessageQueue n false 0 0).addAll (msgs ++ extra)).1.idx = n ∧
    ((clusterserver.newMessageQueue n false 0 0).addAll (msgs ++ extra)).1.get.2 =
      msgs.map some ∧
    ((clusterserver.newMessageQueue n false 0 0).addAll (msgs ++ extra)).1.get.1.idx = 0 ∧
    ((clusterserver.newMessageQueue n false 0 0).addAll (msgs ++ extra)).1.get.1.leftInWrite =
      ! ((clusterserver.newMessageQueue n false 0 0).addAll (msgs ++ extra)).1.leftInWrite ∧
    (((clusterserver.newMessageQueue n false 0 0).addAll (msgs ++ extra)).1.get.1.add m).2 =
      (true, false) := by
  have hsplit : ∀ (xs ys : List clusterserver.Message) (q : clusterserver.messageQueue),
      q.addAll (xs ++ ys) = (((q.addAll xs).1.addAll ys).1,
        (q.addAll xs).2 ++ ((q.addAll xs).1.addAll ys).2) := by
    intro xs
    induction xs with
    | nil => intro ys q; simp [clusterserver.messageQueue.addAll]
    | cons x xs ih =>
      intro ys q
      have hx := ih ys (q.add x).1
      rw [List.cons_append]
      simp only [clusterserver.messageQueue.addAll]
      rw [hx]
      simp only [List.cons_append]
  obtain ⟨g1, g2, g3, g4, g5, g6, g7, g8⟩ := addAll_fill msgs
    (clusterserver.newMessageQueue n false 0 0) rfl rfl
    (by simp [clusterserver.newMessageQueue, hlen])
    (by simp [clusterserver.newMessageQueue, clusterserver.messageQueue.targetQueue])
  have hidx : ((clusterserver.newMessageQueue n false 0 0).addAll msgs).1.idx = n := by
    rw [g2, hlen]; simp [clusterserver.newMessageQueue]
  have hfull := addAll_full extra ((clusterserver.newMessageQueue n false 0 0).addAll msgs).1 g4
    (by rw [hidx, g3]; exact le_of_eq (by simp [clusterserver.newMessageQueue]))
  have hq : ((clusterserver.newMessageQueue n false 0 0).addAll (msgs ++ extra)).1 =
      ((clusterserver.newMessageQueue n false 0 0).addAll msgs).1 := by
    rw [hsplit, hfull]
  rw [hq]
  refine ⟨by simp [clusterserver.newMessageQueue], by simp [clusterserver.newMessageQueue],
    ?_, ?_, hidx, ?_, rfl, rfl, ?_⟩
  · rw [g1, hlen]
  · rw [hsplit, hfull, g1, hlen]
  · simp only [clusterserver.messageQueue.get]
    rw [g8]
    simp [clusterserver.newMessageQueue]
  · have h0 : ¬ (0 : Nat) ≥ ((clusterserver.newMessageQueue n false 0 0).addAll msgs).1.size := by
      rw [g3]; simp only [clusterserver.newMessageQueue]; omega
    have hen : ((clusterserver.newMessageQueue n false 0 0).addAll msgs).1.rl.maxSize = 0 := by
      rw [g5]; rfl
    simp [clusterserver.messageQueue.add, clusterserver.messageQueue.get, h0, g4,
      clusterserver.rateLimiter.Enabled, hen]

theorem c16_message_queue_witness :
    (1 : Nat) ≤ 2 ∧
    ((clusterserver.newMessageQueue 2 false 0 0).addAll
      ([{ Size := 1, Content := 1 }, { Size := 1, Content := 2 }] ++
        [{ Size := 1, Content := 3 }])).2 =
      List.replicate 2 (true, false) ++
        List.replicate [({ Size := 1, Content := 3 } : clusterserver.Message)].length
          (false, false) :=
  ⟨by decide,
    (c16_message_queue 2 (by decide) [{ Size := 1, Content := 1 }, { Size := 1, Content := 2 }]
      [{ Size := 1, Content := 3 }] { Size := 1, Content := 4 } rfl).2.2.2.1⟩

end WuKong
